import Mathlib

/-!
Verification of the Beezle Bug agent-graph execution engine.

Shallow embedding of the core components in
`backend/beezle_bug/`: the in-memory knowledge graph
(`memory/knowledge_graph.py`), the SQLite storage backend
(`storage/sqlite_backend.py`), the scheduler (`scheduler.py`), the agent
executor (`agent_graph/agent.py`), the memory stream
(`memory/memory_stream.py`), and the execution-graph builder and
message-buffer machinery (`agent_graph/execution_graph.py`,
`agent_graph/execution_graph_builder.py`).

Machine integers do not occur; Python strings are Lean `String`s, Python
dicts with string keys are insertion-ordered association lists, timestamps
are modelled as integers ordered like the ISO strings the code compares.
A Python call that can raise is modelled with `PyResult`.
-/

namespace BeezleBug

/-- A routed message: `{sender, content}` (`agent_graph` message dicts). -/
structure Msg where
  sender : String
  content : String
deriving DecidableEq, Repr

/-- Outcome of a Python call: normal return or a raised exception
(carrying its rendered message). -/
inductive PyResult (α : Type) where
  | ok (val : α)
  | exn (msg : String)
deriving DecidableEq, Repr

/-- The `r` is a normal (non-raising) return. -/
def PyResult.isOk {α : Type} : PyResult α → Bool
  | .ok _ => true
  | .exn _ => false

/-- Insertion-ordered string-keyed dictionary (Python `dict`). -/
abbrev Props := List (String × String)

/-- The `d[k] = v` on a Python dict: replace in place if the key exists
(keeping its position, as Python dicts do), otherwise append. -/
def setKey (d : Props) (k v : String) : Props :=
  if d.any (fun p => p.1 == k) then
    d.map (fun p => if p.1 == k then (k, v) else p)
  else
    d ++ [(k, v)]

/-- Python `old.update(fresh)` dict semantics: each key of `fresh` is set
on `old` in order; keys of `old` not mentioned in `fresh` survive. -/
def dictUpdate (old fresh : Props) : Props :=
  fresh.foldl (fun d p => setKey d p.1 p.2) old

/-!
## In-memory knowledge graph — `memory/knowledge_graph.py`

`KnowledgeGraph` wraps a NetworkX `DiGraph`: nodes are entity names with
an attribute dict, and there is at most one directed edge per ordered
pair of nodes, carrying an attribute dict whose `relationship` key holds
the label.  `nodes` and `edges` are kept in insertion order, as NetworkX
adjacency dicts are.
-/

/-- The NetworkX `DiGraph` backing `KnowledgeGraph`: entity nodes with
attribute dicts, and directed edges keyed by ordered node pair. -/
structure KnowledgeGraph where
  nodes : List (String × Props)
  edges : List ((String × String) × Props)
deriving DecidableEq, Repr

namespace KnowledgeGraph

/-- The empty graph (`KnowledgeGraph.__init__`). -/
def empty : KnowledgeGraph := ⟨[], []⟩

/-- The `graph.has_node(entity)`. -/
def hasNode (kg : KnowledgeGraph) (entity : String) : Bool :=
  kg.nodes.any (fun p => p.1 == entity)

/-- Attribute dict of a node, when present. -/
def getNode (kg : KnowledgeGraph) (entity : String) : Option Props :=
  (kg.nodes.find? (fun p => p.1 == entity)).map (fun p => p.2)

/-- The `graph.has_edge(e1, e2)` / the edge data dict for the ordered pair. -/
def getEdge (kg : KnowledgeGraph) (e1 e2 : String) : Option Props :=
  (kg.edges.find? (fun p => p.1 == (e1, e2))).map (fun p => p.2)

/-- NetworkX `add_node(name, **attrs)`: a new node is appended; for an
existing node the attribute dict is updated in place. -/
def addNodeRaw (kg : KnowledgeGraph) (name : String) (attrs : Props) : KnowledgeGraph :=
  if kg.hasNode name then
    { kg with nodes := kg.nodes.map (fun p => if p.1 == name then (p.1, dictUpdate p.2 attrs) else p) }
  else
    { kg with nodes := kg.nodes ++ [(name, attrs)] }

/-- NetworkX `add_edge(u, v, **attrs)`: missing endpoint nodes are added
with empty attribute dicts; an existing edge has its data dict updated in
place, otherwise the edge is appended. -/
def addEdgeRaw (kg : KnowledgeGraph) (u v : String) (attrs : Props) : KnowledgeGraph :=
  { nodes :=
      let n1 := if kg.hasNode u then kg.nodes else kg.nodes ++ [(u, [])]
      if n1.any (fun p => p.1 == v) then n1 else n1 ++ [(v, [])],
    edges :=
      match kg.getEdge u v with
      | some _ =>
          kg.edges.map (fun p => if p.1 == (u, v) then (p.1, dictUpdate p.2 attrs) else p)
      | none => kg.edges ++ [((u, v), attrs)] }

/-- The `KnowledgeGraph.add_entity`: error string if the entity exists,
otherwise add the node with the supplied properties. -/
def add_entity (kg : KnowledgeGraph) (entity : String) (properties : Props) :
    KnowledgeGraph × String :=
  if kg.hasNode entity then
    (kg, "Error: Entity " ++ entity ++ " already exists.")
  else
    (kg.addNodeRaw entity properties, "Entity " ++ entity ++ " added successfully.")

/-- The `KnowledgeGraph.add_entity_property`: set one property on an existing
entity; error string if the entity is missing. -/
def add_entity_property (kg : KnowledgeGraph) (entity prop value : String) :
    KnowledgeGraph × String :=
  if ¬ kg.hasNode entity then
    (kg, "Error: Entity " ++ entity ++ " does not exist.")
  else
    ({ kg with nodes := kg.nodes.map (fun p => if p.1 == entity then (p.1, setKey p.2 prop value) else p) },
     "Property " ++ prop ++ " set to " ++ value ++ " on entity " ++ entity)

/-- The `KnowledgeGraph.remove_entity`: drop the node and every incident
edge (`graph.remove_node`); error string if the entity is missing. -/
def remove_entity (kg : KnowledgeGraph) (entity : String) : KnowledgeGraph × String :=
  if ¬ kg.hasNode entity then
    (kg, "Error: Entity " ++ entity ++ " does not exist.")
  else
    ({ nodes := kg.nodes.filter (fun p => p.1 != entity),
       edges := kg.edges.filter (fun p => p.1.1 != entity && p.1.2 != entity) },
     "Entity " ++ entity ++ " and all its relationships removed successfully.")

/-- The `KnowledgeGraph.add_relationship`: both endpoints must exist; an edge
on the pair with the same `relationship` label is a duplicate error;
otherwise `props[relationship] = rel` and `add_edge` (which updates the
single directed edge in place when the pair already has one). -/
def add_relationship (kg : KnowledgeGraph) (entity1 rel entity2 : String)
    (properties : Props) : KnowledgeGraph × String :=
  if ¬ kg.hasNode entity1 then
    (kg, "Error: Entity " ++ entity1 ++ " does not exist.")
  else if ¬ kg.hasNode entity2 then
    (kg, "Error: Entity " ++ entity2 ++ " does not exist.")
  else
    let dup := match kg.getEdge entity1 entity2 with
      | some d => d.lookup "relationship" == some rel
      | none => false
    if dup then
      (kg, "Error: Relationship already exists.")
    else
      (kg.addEdgeRaw entity1 entity2 (setKey properties "relationship" rel),
       "Relationship added successfully.")

/-- The `KnowledgeGraph.remove_relationship`: the pair must carry an edge
whose `relationship` label matches; then `graph.remove_edge`. -/
def remove_relationship (kg : KnowledgeGraph) (entity1 rel entity2 : String) :
    KnowledgeGraph × String :=
  match kg.getEdge entity1 entity2 with
  | none => (kg, "Error: Relationship does not exist.")
  | some d =>
      if d.lookup "relationship" != some rel then
        (kg, "Error: Relationship does not exist.")
      else
        ({ kg with edges := kg.edges.filter (fun p => p.1 != (entity1, entity2)) },
         "Relationship removed successfully.")

end KnowledgeGraph

/-!
## Knowledge-graph tools — `tools/memory/knowledge_graph.py`

`AddEntity.run` is `async` and executes
`await agent.knowledge_graph.add_entity(self.name, entity)`.  Python
evaluates the inner call first: the synchronous `add_entity` above runs
to completion (mutating the graph) and returns a `str`; awaiting that
`str` then raises `TypeError`.  The `Agent.execute` tool loop catches the
exception and reports `f"Error: {e}"` as the tool result.
-/

/-- Message of the exception raised by `await` on the `str` that the
synchronous `KnowledgeGraph.add_entity` returns. -/
def awaitStrError : String := "object str cannot be used in await expression"

/-- The `AddEntity.run(agent)`: builds `entity = [name, type]`, runs the
synchronous `add_entity` (which mutates the in-memory graph), then the
`await` on its `str` result raises.  Returns the storage state (no
storage operation is issued: the in-memory method never reaches the
backend), the mutated graph, and the raised outcome. -/
def addEntityToolRun {σ : Type} (store : σ) (kg : KnowledgeGraph) (name ty : String) :
    σ × KnowledgeGraph × PyResult String :=
  let entity : Props := [("name", name), ("type", ty)]
  let step := kg.add_entity name entity
  (store, step.1, PyResult.exn awaitStrError)

/-- How `Agent.execute` turns a tool-call outcome into the tool-result
content handed back to the LLM (`str(result_content)` on success,
`f"Error: {e}"` on exception — agent.py lines 197-246). -/
def toolResultContent (r : PyResult String) : String :=
  match r with
  | .ok s => s
  | .exn e => "Error: " ++ e

/-!
## Storage backend — `storage/sqlite_backend.py`

Row-level model of the tables created by `_create_legacy_schema`:
`knowledge_graphs`, `kg_entities` (UNIQUE on `(knowledge_graph_id,
entity_name)`), `kg_relationships` (no uniqueness constraint),
`observations` and `observation_vectors`.  AUTOINCREMENT ids are explicit
counters; rows are kept in insertion (rowid) order, matching what the
backend's unordered SELECTs iterate.  Timestamps are integers ordered
like the ISO strings the SQL compares.
-/

/-- A `knowledge_graphs` row. -/
structure KgRow where
  id : Nat
  projectId : String
  nodeId : String
deriving DecidableEq, Repr

/-- A `kg_entities` row. -/
structure EntityRow where
  id : Nat
  kgId : Nat
  name : String
  props : Props
deriving DecidableEq, Repr

/-- A `kg_relationships` row. -/
structure RelRow where
  id : Nat
  kgId : Nat
  fromId : Nat
  toId : Nat
  relType : String
  props : Props
deriving DecidableEq, Repr

/-- An `observations` row. -/
structure ObsRow where
  id : Nat
  msId : Nat
  content : String
  importance : Int
  created : Int
  accessed : Int
deriving DecidableEq, Repr

/-- An `observation_vectors` row (embeddings as integer vectors; only the
distance ordering matters to the claims). -/
structure VecRow where
  obsId : Nat
  embedding : List Int
deriving DecidableEq, Repr

/-- The SQLite database state used by the embedded operations. -/
structure Store where
  kgs : List KgRow
  entities : List EntityRow
  rels : List RelRow
  observations : List ObsRow
  vectors : List VecRow
  nextEntityId : Nat
  nextRelId : Nat
deriving DecidableEq, Repr

namespace Store

/-- The `kg_get_entity_id`: first row matching `(knowledge_graph_id,
entity_name)` — unique by the schema constraint. -/
def kg_get_entity_id (s : Store) (kgId : Nat) (name : String) : Option Nat :=
  (s.entities.find? (fun r => r.kgId == kgId && r.name == name)).map (fun r => r.id)

/-- The `kg_add_entity`: plain INSERT; the UNIQUE `(knowledge_graph_id,
entity_name)` constraint raises an integrity error on a name collision
within the graph. -/
def kg_add_entity (s : Store) (kgId : Nat) (name : String) (props : Props) :
    PyResult Nat × Store :=
  if s.entities.any (fun r => r.kgId == kgId && r.name == name) then
    (PyResult.exn "IntegrityError: UNIQUE constraint failed: kg_entities", s)
  else
    (PyResult.ok s.nextEntityId,
     { s with entities := s.entities ++ [⟨s.nextEntityId, kgId, name, props⟩],
              nextEntityId := s.nextEntityId + 1 })

/-- The `kg_add_relationship`: looks up both endpoint ids; raises
`ValueError` when either is missing; otherwise INSERTs a new
relationship row — there is no duplicate check and no uniqueness
constraint on `(from, rel_type, to)`. -/
def kg_add_relationship (s : Store) (kgId : Nat)
    (fromName relType toName : String) (props : Props) : PyResult Nat × Store :=
  match s.kg_get_entity_id kgId fromName, s.kg_get_entity_id kgId toName with
  | some fId, some tId =>
      (PyResult.ok s.nextRelId,
       { s with rels := s.rels ++ [⟨s.nextRelId, kgId, fId, tId, relType, props⟩],
                nextRelId := s.nextRelId + 1 })
  | _, _ =>
      (PyResult.exn ("ValueError: Entity not found: " ++ fromName ++ " or " ++ toName), s)

/-- The `kg_remove_entity`: no-op when the entity is absent; otherwise delete
every relationship row incident to its id (either direction), then the
entity row. -/
def kg_remove_entity (s : Store) (kgId : Nat) (name : String) : Store :=
  match s.kg_get_entity_id kgId name with
  | none => s
  | some eId =>
      { s with rels := s.rels.filter (fun r => !(r.fromId == eId || r.toId == eId)),
               entities := s.entities.filter (fun r => r.id != eId) }

/-- Body of `kg_load_full` once the graph row is resolved: build entity
nodes from their JSON property dicts, then add one edge per relationship
row via the id-to-name map, setting `relationship` to the row's
`rel_type` (NetworkX `add_edge` merge semantics). -/
def loadGraph (s : Store) (kgId : Nat) : KnowledgeGraph :=
  let ents := s.entities.filter (fun r => r.kgId == kgId)
  let kg1 := ents.foldl (fun kg e => kg.addNodeRaw e.name e.props) KnowledgeGraph.empty
  let idToName := ents.map (fun e => (e.id, e.name))
  let rows := s.rels.filter (fun r => r.kgId == kgId)
  rows.foldl (fun kg r =>
    match idToName.lookup r.fromId, idToName.lookup r.toId with
    | some fn, some tn => kg.addEdgeRaw fn tn (setKey r.props "relationship" r.relType)
    | _, _ => kg) kg1

/-- The `kg_load_full`: resolve the graph row by `(project_id, node_id)` and
load the whole knowledge graph into a `KnowledgeGraph` instance. -/
def kg_load_full (s : Store) (projectId nodeId : String) : Option KnowledgeGraph :=
  match s.kgs.find? (fun r => r.projectId == projectId && r.nodeId == nodeId) with
  | none => none
  | some row => some (s.loadGraph row.id)

end Store

/-- Insert into a list sorted ascending by `key`. -/
def insertByKey {α : Type} (key : α → Int) (a : α) : List α → List α
  | [] => [a]
  | b :: bs => if key a ≤ key b then a :: b :: bs else b :: insertByKey key a bs

/-- Sort ascending by `key` (models the SQL `ORDER BY`). -/
def sortByKey {α : Type} (key : α → Int) (l : List α) : List α :=
  l.foldr (insertByKey key) []

/-- Squared Euclidean distance on the common prefix — monotone image of
the vector distance `sqlite-vec` orders by. -/
def distSq (q e : List Int) : Int :=
  (q.zip e).foldl (fun acc p => acc + (p.1 - p.2) * (p.1 - p.2)) 0

namespace Store

/-- Embedding stored for an observation id (empty when absent). -/
def vecOf (s : Store) (obsId : Nat) : List Int :=
  ((s.vectors.find? (fun v => v.obsId == obsId)).map (fun v => v.embedding)).getD []

/-- The SQL date window: `created_at >= from` and `created_at <= to`,
each only when supplied. -/
def inBounds (fromDate toDate : Option Int) (t : Int) : Bool :=
  (match fromDate with
   | none => true
   | some f => decide (f ≤ t)) &&
  (match toDate with
   | none => true
   | some u => decide (t ≤ u))

/-- The `ms_search`: observations of the stream joined with their vector
rows, filtered by the optional creation-date window, ordered by vector
distance, `LIMIT k`.  Every returned row carries its storage id. -/
def ms_search (s : Store) (msId : Nat) (q : List Int) (k : Nat)
    (fromDate toDate : Option Int) : List ObsRow :=
  let candidates := s.observations.filter (fun o =>
    o.msId == msId && s.vectors.any (fun v => v.obsId == o.id) &&
    inBounds fromDate toDate o.created)
  (sortByKey (fun o => distSq q (s.vecOf o.id)) candidates).take k

/-- The `ms_update_accessed`: set `accessed_at` to the current time on every
row whose id is listed. -/
def ms_update_accessed (s : Store) (ids : List Nat) (now : Int) : Store :=
  { s with observations := s.observations.map (fun o =>
      if ids.contains o.id then { o with accessed := now } else o) }

end Store

/-- The `MemoryStream.retrieve` (storage-backed path, memory_stream.py lines
100-118): vector search, collect the returned `_db_id`s, refresh their
`accessed` timestamps when any were found, and return the results
re-sorted chronologically by creation time.  `now` is the time of the
call. -/
def MemoryStream.retrieve (s : Store) (msId : Nat) (q : List Int) (k : Nat)
    (fromDate toDate : Option Int) (now : Int) : List ObsRow × Store :=
  let found := s.ms_search msId q k fromDate toDate
  let ids := found.map (fun o => o.id)
  let s1 := if ids.isEmpty then s else s.ms_update_accessed ids now
  (sortByKey (fun o => o.created) found, s1)

/-!
## Scheduler — `scheduler.py`

`Scheduler._run_loop` runs one tick per wakeup: it snapshots the task
map, and for each task with `should_run(now)` evaluates
`task.callback()` inside a `try`; on success it increments `run_count`,
sets `last_run = now` and disables `once` tasks; a raised exception is
logged and nothing is updated.

A callback is either a plain synchronous function (performs its effects,
possibly raising) or an `async def` function: *calling* an `async`
function in Python builds a coroutine object and runs none of its body —
`_run_loop` never awaits the returned value, so the body's effects are
the coroutine's pending effects, which are discarded.
-/

/-- Kinds of trigger (`TriggerType`; `CRON` is declared but unused). -/
inductive TriggerType where
  | once
  | interval
deriving DecidableEq, Repr

/-- A registered callback: synchronous (with its effects and whether it
raises), or an `async def` whose body effects stay pending in the
coroutine it returns. -/
inductive CallbackKind where
  | sync (effects : List String) (raises : Bool)
  | coroutine (effects : List String)
deriving DecidableEq, Repr

/-- Effects performed by the expression `task.callback()` and whether it
raised: a sync callback runs; calling an `async def` merely constructs a
coroutine — no body effect, no exception. -/
def invokeCallback : CallbackKind → List String × Bool
  | .sync effects raises => (effects, raises)
  | .coroutine _ => ([], false)

/-- Modelled from the spec: what §4.4 prescribes for
`task.callback()` — "if the callback returns a deferred computation (a
pending async value), it is awaited before the next task is considered",
so a coroutine's body effects are performed within the tick. -/
def invokeCallbackAwaited : CallbackKind → List String × Bool
  | .sync effects raises => (effects, raises)
  | .coroutine effects => (effects, false)

/-- A `ScheduledTask` record. -/
structure ScheduledTask where
  id : String
  trigger_type : TriggerType
  callback : CallbackKind
  run_at : Option Int
  interval_seconds : Int
  last_run : Option Int
  enabled : Bool
  run_count : Nat
deriving Repr

/-- The `ScheduledTask.should_run(now)`. -/
def ScheduledTask.should_run (t : ScheduledTask) (now : Int) : Bool :=
  if ¬ t.enabled then false
  else
    match t.trigger_type with
    | .once =>
        match t.run_at with
        | some r => decide (r ≤ now) && (t.run_count == 0)
        | none => false
    | .interval =>
        match t.last_run with
        | none => true
        | some lr => decide (t.interval_seconds ≤ now - lr)

/-- The `Scheduler.schedule_once`: a fresh `ONCE` task. -/
def schedule_once (taskId : String) (cb : CallbackKind) (runAt : Int) : ScheduledTask :=
  { id := taskId, trigger_type := .once, callback := cb, run_at := some runAt,
    interval_seconds := 0, last_run := none, enabled := true, run_count := 0 }

/-- One task's treatment within a tick of `_run_loop`, given `invoke` as
the semantics of `task.callback()`: returns the updated task, the
effects performed, and the invocation record (task id and tick time)
when the callback was called. -/
def runTask (invoke : CallbackKind → List String × Bool) (now : Int)
    (t : ScheduledTask) : ScheduledTask × List String × List (String × Int) :=
  if t.should_run now then
    let r := invoke t.callback
    if r.2 then
      (t, r.1, [(t.id, now)])
    else
      let t1 := { t with run_count := t.run_count + 1, last_run := some now }
      let t2 := if t1.trigger_type == TriggerType.once then { t1 with enabled := false } else t1
      (t2, r.1, [(t.id, now)])
  else (t, [], [])

/-- One tick of `_run_loop` over the task snapshot, in order. -/
def tick (invoke : CallbackKind → List String × Bool) (now : Int)
    (tasks : List ScheduledTask) : List ScheduledTask × List String × List (String × Int) :=
  tasks.foldl (fun acc t =>
    let r := runTask invoke now t
    (acc.1 ++ [r.1], acc.2.1 ++ r.2.1, acc.2.2 ++ r.2.2)) ([], [], [])

/-- Successive ticks of the loop at the given times, accumulating the
effect log and the invocation records. -/
def runTicks (invoke : CallbackKind → List String × Bool) :
    List Int → List ScheduledTask →
    List ScheduledTask × List String × List (String × Int)
  | [], tasks => (tasks, [], [])
  | now :: rest, tasks =>
      let r := tick invoke now tasks
      let acc := runTicks invoke rest r.1
      (acc.1, r.2.1 ++ acc.2.1, r.2.2 ++ acc.2.2)

/-!
## Agent executor — `agent_graph/agent.py`

`Agent.execute(messages)` in stateful mode (a bound memory stream):
store each incoming message as a user-role observation, call
`self.memory_stream.retrieve_recent(n=self.context_size)` for the
context, then run the LLM/tool loop, persisting the assistant response
and every tool result.

The LLM adapter is modelled as a script: the list of responses (or
exceptions) its successive `chat_completion` calls produce.  A tool is a
name paired with a function from its raw argument string to a result or
a raised exception.  The memory stream is the list of observation
contents in append order.
-/

/-- One tool call in an adapter response. -/
structure ToolCall where
  id : String
  name : String
  arguments : String
deriving DecidableEq, Repr

/-- An adapter `chat_completion` response. -/
structure Response where
  content : Option String
  tool_calls : List ToolCall
deriving DecidableEq, Repr

/-- Content of one memory-stream observation, in the shape
`MemoryStream.add` receives it. -/
inductive MemContent where
  | userMessage (content : String)
  | assistantResponse (r : Response)
  | toolResult (tool_call_id : String) (content : String)
deriving DecidableEq, Repr

/-- The user-role observation built for an incoming message
(`Message(role="user", content=...)`, agent.py line 126). -/
def formatUser (m : Msg) : String :=
  "[" ++ m.sender ++ "]: " ++ m.content

/-- A toolbox: tool name to tool body (raw JSON argument string in,
result out or exception). -/
abbrev Toolbox := List (String × (String → PyResult String))

/-- The inner `for tool_call in response.tool_calls` loop (agent.py lines
183-246): resolve each call by name — an unknown name yields the
synthetic `Tool not found` result, a raising body yields `Error: <msg>`
— and append each tool result to the memory stream. -/
def processToolCalls (tools : Toolbox) (mem : List MemContent)
    (tcs : List ToolCall) : List MemContent :=
  tcs.foldl (fun mem tc =>
    let outcome := match tools.lookup tc.name with
      | some body => body tc.arguments
      | none => PyResult.ok ("Tool " ++ tc.name ++ " not found.")
    mem ++ [MemContent.toolResult tc.id (toolResultContent outcome)]) mem

/-- The `while response.tool_calls` loop (agent.py lines 182-257): while
the current response carries tool calls, resolve them, then consume the
next adapter response (persisting it); an adapter exception ends the
turn with an error (the caller returns `[]`).  Recursion is on the
adapter script, which the loop consumes one response per iteration. -/
def toolLoop (tools : Toolbox) :
    List (PyResult Response) → Response → List MemContent →
    PyResult (Option String) × List MemContent
  | script, resp, mem =>
    if resp.tool_calls.isEmpty then (PyResult.ok resp.content, mem)
    else
      let mem1 := processToolCalls tools mem resp.tool_calls
      match script with
      | [] => (PyResult.exn "adapter unavailable", mem1)
      | PyResult.exn e :: _ => (PyResult.exn e, mem1)
      | PyResult.ok resp2 :: rest =>
          toolLoop tools rest resp2 (mem1 ++ [MemContent.assistantResponse resp2])

/-- The `Agent.execute` from the first `chat_completion` on (agent.py lines
147-262), given the adapter script: an adapter exception returns `[]`;
otherwise the response is persisted, the tool loop runs, and a final
non-empty content becomes the reply `[(agent_name, content)]`. -/
def runTurn (tools : Toolbox) (script : List (PyResult Response))
    (mem : List MemContent) (agentName : String) : List Msg × List MemContent :=
  match script with
  | [] => ([], mem)
  | PyResult.exn _ :: _ => ([], mem)
  | PyResult.ok resp :: rest =>
      let mem1 := mem ++ [MemContent.assistantResponse resp]
      match toolLoop tools rest resp mem1 with
      | (PyResult.exn _, mem2) => ([], mem2)
      | (PyResult.ok contentOpt, mem2) =>
          match contentOpt with
          | some c => if c == "" then ([], mem2) else ([⟨agentName, c⟩], mem2)
          | none => ([], mem2)

/-- Default `context_size` of `Agent.__init__`. -/
def defaultContextSize : Nat := 25

/-- Names of the methods the `MemoryStream` class
(memory/memory_stream.py) defines.  There is no `retrieve_recent`. -/
def memoryStreamMethods : List String :=
  ["__init__", "add", "retrieve", "_in_memory_retrieve", "get_metadata",
   "update_metadata", "to_dict", "from_dict"]

/-- The `Agent.execute` on the stateful path (agent.py lines 122-140 and
onward): store each incoming message as a user-role observation, then
look up `retrieve_recent` on the memory stream; the attribute is absent,
so the call raises and the turn aborts with the inputs already
persisted.  (Were the method present, the turn would continue with
`runTurn`; the uncaught exception propagates out of `execute`.) -/
def executeStateful (contextSize : Nat) (messages : List Msg)
    (mem : List MemContent) (tools : Toolbox) (script : List (PyResult Response))
    (agentName : String) : PyResult (List Msg) × List MemContent :=
  let _ := contextSize
  let mem1 := mem ++ messages.map (fun m => MemContent.userMessage (formatUser m))
  if memoryStreamMethods.contains "retrieve_recent" then
    let r := runTurn tools script mem1 agentName
    (PyResult.ok r.1, r.2)
  else
    (PyResult.exn "AttributeError: MemoryStream object has no attribute retrieve_recent",
     mem1)

/-!
## Delegate tools — `execution_graph_builder.py` lines 38-75

`create_delegate_tool` synthesises, for a `delegate` edge from agent A's
`ask` port to agent B, a tool class whose pydantic schema has the single
string field `question` and whose `run` looks B up in the executables
map and forwards the question as one message from A.
-/

/-- The synthesised tool name: `ask_` plus the target's display name
lowercased with spaces and hyphens replaced by underscores. -/
def delegateToolName (targetName : String) : String :=
  "ask_" ++ ((targetName.toLower).replace " " "_").replace "-" "_"

/-- The `DelegateTool.run`: resolve the target agent by node id in the
executables map (error string when absent — quotes around the name
elided), call its `execute` with the single message
`[(source_name, question)]`, and return the first reply's content, or
`No response from agent` when the reply list is empty. -/
def delegateRun (executables : List (String × (List Msg → List Msg)))
    (targetNodeId targetName sourceName question : String) : String :=
  match executables.lookup targetNodeId with
  | none => "Error: Agent " ++ targetName ++ " is not available"
  | some ex =>
      match ex [⟨sourceName, question⟩] with
      | [] => "No response from agent"
      | r :: _ => r.content

/-!
## Execution graph — `agent_graph/execution_graph.py` and
`agent_graph/execution_graph_builder.py`

`MessageBufferState` holds the pending messages of a `message_buffer`
node; `_build_routing_table` classifies every `message` edge leaving a
`message_out` port.  No module under the backend consumes the routing
table; the walk that does is modelled from the spec below.
-/

/-- The `MessageBufferState`: pending messages collected until a trigger. -/
structure MessageBufferState where
  pending_messages : List Msg
deriving DecidableEq, Repr

/-- The `MessageBufferState.buffer`: `pending_messages.extend(messages)`. -/
def MessageBufferState.buffer (st : MessageBufferState) (messages : List Msg) :
    MessageBufferState :=
  ⟨st.pending_messages ++ messages⟩

/-- The `MessageBufferState.flush`: return the pending messages and clear. -/
def MessageBufferState.flush (st : MessageBufferState) :
    List Msg × MessageBufferState :=
  (st.pending_messages, ⟨[]⟩)

/-- Node kinds of the design graph (`NodeType`). -/
inductive NodeKind where
  | agent
  | knowledge_graph
  | memory_stream
  | toolbox
  | text_input
  | voice_input
  | text_output
  | scheduled_event
  | wait_and_combine
  | message_buffer
deriving DecidableEq, Repr

/-- Edge kinds of the design graph (`EdgeType`). -/
inductive EdgeKind where
  | message
  | pipeline
  | resource
  | delegate
deriving DecidableEq, Repr

/-- A design-graph edge (`Edge`). -/
structure GEdge where
  source_node : String
  source_port : String
  target_node : String
  target_port : String
  edge_type : EdgeKind
deriving DecidableEq, Repr

/-- The design graph: nodes (id to kind) and edges in insertion order. -/
structure Design where
  nodes : List (String × NodeKind)
  edges : List GEdge
deriving DecidableEq, Repr

/-- The `AgentGraph.get_node`. -/
def Design.getNode (d : Design) (nodeId : String) : Option NodeKind :=
  d.nodes.lookup nodeId

/-- Routing-target kinds (`"executable"`, `"message_buffer_in"`,
`"message_buffer_trigger"`, `"exit"`). -/
inductive TargetKind where
  | executable
  | message_buffer_in
  | message_buffer_trigger
  | exitTarget
deriving DecidableEq, Repr

/-- Classification of one edge by `_build_routing_table` (builder lines
397-423): only `message` edges from a `message_out` port whose target
exists; the target is an executable, a buffer port (by `target_port`),
or a text output; anything else is skipped. -/
def classifyEdge (d : Design) (executables buffers : List String)
    (e : GEdge) : Option (TargetKind × String) :=
  if e.edge_type != EdgeKind.message then none
  else if e.source_port != "message_out" then none
  else
    match d.getNode e.target_node with
    | none => none
    | some kind =>
        if executables.contains e.target_node then
          some (TargetKind.executable, e.target_node)
        else if buffers.contains e.target_node then
          if e.target_port == "trigger" then
            some (TargetKind.message_buffer_trigger, e.target_node)
          else
            some (TargetKind.message_buffer_in, e.target_node)
        else if kind == NodeKind.text_output then
          some (TargetKind.exitTarget, e.target_node)
        else none

/-- Append a routing entry under a source key, preserving dict insertion
order (`routing[source_id].append(...)`). -/
def appendRouting (routing : List (String × List (TargetKind × String)))
    (src : String) (entry : TargetKind × String) :
    List (String × List (TargetKind × String)) :=
  match routing.lookup src with
  | some _ => routing.map (fun p => if p.1 == src then (p.1, p.2 ++ [entry]) else p)
  | none => routing ++ [(src, [entry])]

/-- The `ExecutionGraphBuilder._build_routing_table`: fold the design edges
in order, appending each classified edge under its source node. -/
def build_routing_table (d : Design) (executables buffers : List String) :
    List (String × List (TargetKind × String)) :=
  d.edges.foldl (fun routing e =>
    match classifyEdge d executables buffers e with
    | none => routing
    | some entry => appendRouting routing e.source_node entry) []

/-- Successor list of a source in a routing table (empty when absent). -/
def lookupRouting (routing : List (String × List (TargetKind × String)))
    (src : String) : List (TargetKind × String) :=
  (routing.lookup src).getD []

/-- Runtime state of the walk: each buffer's `MessageBufferState` plus a
ghost log recording, in order, every message list handed to a target. -/
structure WalkState where
  buffers : List (String × MessageBufferState)
  log : List (String × List Msg)
deriving Repr

/-- Pending messages of a buffer (empty when the id is unknown). -/
def WalkState.getPending (st : WalkState) (b : String) : List Msg :=
  ((st.buffers.lookup b).getD ⟨[]⟩).pending_messages

/-- Replace a buffer's state in place. -/
def WalkState.setBuf (st : WalkState) (b : String) (s : MessageBufferState) :
    WalkState :=
  { st with buffers := st.buffers.map (fun p => if p.1 == b then (p.1, s) else p) }

/-- Record the delivery of a message list to a target. -/
def WalkState.deliver (st : WalkState) (target : String) (msgs : List Msg) :
    WalkState :=
  { st with log := st.log ++ [(target, msgs)] }

mutual

/-- Modelled from the spec: `walk_from(source_id, messages)` (§4.6), the
routing primitive absent from the backend sources — for each routed
target of the source, in order: execute and recurse on non-empty
outputs, append to a buffer, or flush a buffer and recurse on the
flushed list.  `fuel` bounds the recursion depth; executables are
modelled by the pure `execs` map (the `execute(messages) → messages`
contract of §6). -/
def walkFrom (fuel : Nat) (rt : String → List (TargetKind × String))
    (execs : String → List Msg → List Msg) (src : String) (msgs : List Msg)
    (st : WalkState) : WalkState :=
  match fuel with
  | 0 => st
  | f + 1 => walkTargets f rt execs (rt src) msgs st
termination_by (fuel, 0)

/-- Modelled from the spec: the body of `walk_from`, processing the
target list in order.  Every target receives the current message list
(recorded on the ghost log); a trigger target flushes its buffer and
walks the flushed list onward. -/
def walkTargets (fuel : Nat) (rt : String → List (TargetKind × String))
    (execs : String → List Msg → List Msg)
    (targets : List (TargetKind × String)) (msgs : List Msg)
    (st : WalkState) : WalkState :=
  match targets with
  | [] => st
  | (kind, tid) :: rest =>
      let st1 :=
        match kind with
        | TargetKind.executable =>
            let outputs := execs tid msgs
            let stA := st.deliver tid msgs
            if outputs.isEmpty then stA else walkFrom fuel rt execs tid outputs stA
        | TargetKind.message_buffer_in =>
            let stA := st.deliver tid msgs
            stA.setBuf tid (((stA.buffers.lookup tid).getD ⟨[]⟩).buffer msgs)
        | TargetKind.message_buffer_trigger =>
            let flushed := ((st.buffers.lookup tid).getD ⟨[]⟩).flush
            let stA := (st.deliver tid msgs).setBuf tid flushed.2
            if flushed.1.isEmpty then stA else walkFrom fuel rt execs tid flushed.1 stA
        | TargetKind.exitTarget =>
            st.deliver tid msgs
      walkTargets fuel rt execs rest msgs st1
termination_by (fuel, targets.length + 1)
end

/-!
## Concrete instances used in the claim theorems and witnesses
-/

/-- A target agent whose `execute` returns no reply. -/
def silentExec : List Msg → List Msg := fun _ => []

/-- A target agent that replies `4` as Bob. -/
def bobExec : List Msg → List Msg := fun _ => [⟨"Bob", "4"⟩]

/-- A store holding one knowledge graph with entities Alice and Bob and
an existing `(Alice, knows, Bob)` relationship row. -/
def c6Store : Store :=
  { kgs := [⟨1, "p", "kg-node"⟩],
    entities := [⟨1, 1, "Alice", []⟩, ⟨2, 1, "Bob", []⟩],
    rels := [⟨10, 1, 1, 2, "knows", []⟩],
    observations := [], vectors := [],
    nextEntityId := 3, nextRelId := 11 }

/-- A store with one memory stream holding a single observation and its
vector row. -/
def c7Store : Store :=
  { kgs := [], entities := [], rels := [],
    observations := [⟨5, 1, "event-7", 0, 100, 100⟩],
    vectors := [⟨5, [1, 2]⟩],
    nextEntityId := 1, nextRelId := 1 }

/-- The `DiGraph` representation invariant: at most one edge per ordered
node pair (edge keys are distinct). -/
def edgeKeysNodup (kg : KnowledgeGraph) : Prop :=
  (kg.edges.map (fun p => p.1)).Nodup

/-- A two-entity graph whose single edge `Alice → Paris` is labelled
`visited`. -/
def c10Kg : KnowledgeGraph :=
  ⟨[("Alice", []), ("Paris", [])],
   [(("Alice", "Paris"), [("relationship", "visited"), ("since", "2020")])]⟩

/-- A store with one knowledge graph holding Alice and Paris and an
`Alice lives_in Paris` relationship row. -/
def c9Store : Store :=
  { kgs := [⟨1, "p", "kg-node"⟩],
    entities := [⟨1, 1, "Alice", [("type", "person")]⟩, ⟨2, 1, "Paris", [("type", "city")]⟩],
    rels := [⟨10, 1, 1, 2, "lives_in", []⟩],
    observations := [], vectors := [],
    nextEntityId := 3, nextRelId := 11 }

/-- A design with a buffer `B` feeding an agent `A` and a text output. -/
def c2Design : Design :=
  ⟨[("B", NodeKind.message_buffer), ("A", NodeKind.agent), ("T", NodeKind.text_output)],
   [⟨"B", "message_out", "A", "message_in", EdgeKind.message⟩]⟩

/-- Walk state with one pending message buffered in `B`. -/
def c2State : WalkState :=
  ⟨[("B", ⟨[⟨"u", "hello"⟩]⟩)], []⟩

/-- Executables that consume their input and reply nothing. -/
def c2Execs : String → List Msg → List Msg := fun _ _ => []

/-!
## Claim C1 — stateful `Agent.execute`
-/

/-- C1: the claim says a stateful `execute` appends the inputs as
user-role observations, fetches the N (default 25) most recent
observations for the context, and on successful return leaves the stream
holding inputs, response and tool results.  The code stores the inputs
but then calls `memory_stream.retrieve_recent`, a method the
`MemoryStream` class does not define, so the turn raises
`AttributeError` and never completes: at the failing input below the
call raises with only the input observation persisted. -/
theorem c1_stateful_execute_raises :
    executeStateful defaultContextSize [⟨"Alice", "hi"⟩] [] [] [] "Assistant"
      = (PyResult.exn "AttributeError: MemoryStream object has no attribute retrieve_recent",
         [MemContent.userMessage "[Alice]: hi"])
    ∧ memoryStreamMethods.contains "retrieve_recent" = false := by
  constructor
  · rfl
  · rfl

/-!
## Claim C3 — the scheduler and deferred computations
-/

/-- C3: the claim says a callback returning a deferred computation is
awaited to completion before the next task.  `_run_loop` evaluates
`task.callback()` and discards the result, so an `async` callback's body
never runs: on a due task whose coroutine carries one pending effect,
the code tick performs no effect at all, while the spec-modelled
awaiting tick performs it. -/
theorem c3_deferred_callback_not_awaited :
    (tick invokeCallback 0 [schedule_once "ev" (CallbackKind.coroutine ["agent turn"]) 0]).2.1
      = []
    ∧ (tick invokeCallbackAwaited 0 [schedule_once "ev" (CallbackKind.coroutine ["agent turn"]) 0]).2.1
      = ["agent turn"] := by
  constructor
  · rfl
  · rfl

/-!
## Claim C4 — `AddEntity` tool call
-/

/-- C4 counterexample: the claim says the in-memory knowledge graph is
unchanged by the failing tool call.  Running the `AddEntity` tool on the
empty graph leaves the entity in the graph: the synchronous `add_entity`
mutates it before the `await` on its `str` result raises. -/
theorem c4_counterexample :
    (addEntityToolRun (0 : Nat) KnowledgeGraph.empty "Alice" "person").2.1
      ≠ KnowledgeGraph.empty
    ∧ (addEntityToolRun (0 : Nat) KnowledgeGraph.empty "Alice" "person").2.1.nodes
      = [("Alice", [("name", "Alice"), ("type", "person")])] := by
  constructor
  · intro h
    exact absurd (congrArg KnowledgeGraph.nodes h) (by decide)
  · rfl

/-- C4 amended: the tool call awaits the synchronous method's `str`
result and therefore raises; the agent reports the exception as an
`Error: <msg>` tool result; the stored knowledge graph is untouched (no
storage operation is issued); but the in-memory graph is mutated before
the failed `await` — for a fresh entity name it now contains the
entity. -/
theorem c4_tool_raises_but_graph_mutated {σ : Type} (store : σ)
    (kg : KnowledgeGraph) (name ty : String) (h : kg.hasNode name = false) :
    (addEntityToolRun store kg name ty).2.2 = PyResult.exn awaitStrError
    ∧ toolResultContent (addEntityToolRun store kg name ty).2.2
        = "Error: " ++ awaitStrError
    ∧ (addEntityToolRun store kg name ty).1 = store
    ∧ (addEntityToolRun store kg name ty).2.1
        = kg.addNodeRaw name [("name", name), ("type", ty)] := by
  refine ⟨rfl, rfl, rfl, ?_⟩
  simp [addEntityToolRun, KnowledgeGraph.add_entity, h]

/-- C4 witness: the amended theorem applied at the empty graph. -/
theorem c4_witness :
    KnowledgeGraph.empty.hasNode "Alice" = false
    ∧ ((addEntityToolRun (0 : Nat) KnowledgeGraph.empty "Alice" "person").2.2
        = PyResult.exn awaitStrError
      ∧ toolResultContent (addEntityToolRun (0 : Nat) KnowledgeGraph.empty "Alice" "person").2.2
        = "Error: " ++ awaitStrError
      ∧ (addEntityToolRun (0 : Nat) KnowledgeGraph.empty "Alice" "person").1 = 0
      ∧ (addEntityToolRun (0 : Nat) KnowledgeGraph.empty "Alice" "person").2.1
        = KnowledgeGraph.empty.addNodeRaw "Alice" [("name", "Alice"), ("type", "person")]) :=
  ⟨by rfl, c4_tool_raises_but_graph_mutated 0 KnowledgeGraph.empty "Alice" "person" (by rfl)⟩

/-!
## Claim C5 — delegate tools
-/



/-- C5 counterexample: the claim says the tool returns the string
`No response` when the target's reply list is empty; the code returns
`No response from agent`. -/
theorem c5_counterexample :
    delegateRun [("b", silentExec)] "b" "Bob" "Alice" "2+2" = "No response from agent"
    ∧ delegateRun [("b", silentExec)] "b" "Bob" "Alice" "2+2" ≠ "No response" := by
  constructor
  · rfl
  · intro h
    exact absurd h (by decide)

/-- C5 amended: for a delegate edge to agent B, the synthesised tool is
named `ask_<sanitised B name>`; its body calls B's `execute` with the
single message `{sender: A name, content: question}` and returns the
first reply's content, or `No response from agent` when the reply list
is empty. -/
theorem c5_delegate_tool (executables : List (String × (List Msg → List Msg)))
    (tid targetName sourceName question : String) (ex : List Msg → List Msg)
    (h : executables.lookup tid = some ex) :
    delegateToolName targetName
      = "ask_" ++ ((targetName.toLower).replace " " "_").replace "-" "_"
    ∧ (ex [⟨sourceName, question⟩] = [] →
        delegateRun executables tid targetName sourceName question
          = "No response from agent")
    ∧ (∀ r rest, ex [⟨sourceName, question⟩] = r :: rest →
        delegateRun executables tid targetName sourceName question = r.content) := by
  refine ⟨rfl, ?_, ?_⟩
  · intro hEmpty
    simp [delegateRun, h, hEmpty]
  · intro r rest hCons
    simp [delegateRun, h, hCons]

/-- C5 witness: the amended theorem applied at a one-agent executables
map where Bob answers `4`; the non-empty-reply case gives `4` back. -/
theorem c5_witness :
    List.lookup "b" [("b", bobExec)] = some bobExec
    ∧ bobExec [⟨"Alice", "2+2"⟩] = ⟨"Bob", "4"⟩ :: []
    ∧ delegateRun [("b", bobExec)] "b" "Bob Agent" "Alice" "2+2" = "4" :=
  ⟨by rfl, by rfl,
    (c5_delegate_tool [("b", bobExec)] "b" "Bob Agent" "Alice" "2+2" bobExec
      (by rfl)).2.2 ⟨"Bob", "4"⟩ [] (by rfl)⟩

/-!
## Claim C6 — `kg_add_relationship`
-/


/-- C6 counterexample: the claim says adding a relationship whose
`(from, rel, to)` triple already exists returns a `DuplicateRelationship`
error instead of inserting a second copy.  On a store already holding
`(Alice, knows, Bob)`, the call succeeds and a second identical triple
is inserted: there is no duplicate check and no uniqueness constraint on
`kg_relationships`. -/
theorem c6_counterexample :
    (c6Store.kg_add_relationship 1 "Alice" "knows" "Bob" []).1.isOk = true
    ∧ ((c6Store.kg_add_relationship 1 "Alice" "knows" "Bob" []).2.rels.filter
        (fun r => r.fromId == 1 && r.relType == "knows" && r.toId == 2)).length = 2 := by
  constructor
  · rfl
  · rfl

/-- C6 amended: `kg_add_relationship` raises the entity-not-found
`ValueError` and leaves the store unchanged when either endpoint is
missing from the knowledge graph; when both endpoints resolve it always
appends a new relationship row — a duplicate `(from, rel, to)` triple is
inserted as a second copy rather than rejected. -/
theorem c6_add_relationship (s : Store) (kgId : Nat)
    (fromName relType toName : String) (props : Props) :
    ((s.kg_get_entity_id kgId fromName = none ∨ s.kg_get_entity_id kgId toName = none) →
      s.kg_add_relationship kgId fromName relType toName props
        = (PyResult.exn ("ValueError: Entity not found: " ++ fromName ++ " or " ++ toName), s))
    ∧ (∀ fId tId, s.kg_get_entity_id kgId fromName = some fId →
        s.kg_get_entity_id kgId toName = some tId →
        s.kg_add_relationship kgId fromName relType toName props
          = (PyResult.ok s.nextRelId,
             { s with rels := s.rels ++ [⟨s.nextRelId, kgId, fId, tId, relType, props⟩],
                      nextRelId := s.nextRelId + 1 })) := by
  constructor
  · intro hmiss
    rcases hmiss with hf | ht
    · simp [Store.kg_add_relationship, hf]
    · cases hfrom : s.kg_get_entity_id kgId fromName <;>
        simp [Store.kg_add_relationship, hfrom, ht]
  · intro fId tId hf ht
    simp [Store.kg_add_relationship, hf, ht]

/-- C6 witness: the amended theorem applied at `c6Store`, where both
endpoints of `(Alice, knows, Bob)` resolve, inserting a second copy. -/
theorem c6_witness :
    c6Store.kg_get_entity_id 1 "Alice" = some 1
    ∧ c6Store.kg_get_entity_id 1 "Bob" = some 2
    ∧ c6Store.kg_add_relationship 1 "Alice" "knows" "Bob" []
        = (PyResult.ok c6Store.nextRelId,
           { c6Store with
               rels := c6Store.rels ++ [⟨c6Store.nextRelId, 1, 1, 2, "knows", []⟩],
               nextRelId := c6Store.nextRelId + 1 }) :=
  ⟨by rfl, by rfl,
    (c6_add_relationship c6Store 1 "Alice" "knows" "Bob" []).2 1 2 (by rfl) (by rfl)⟩

/-!
## Claim C7 — `ms_search` / `MemoryStream.retrieve`
-/

/-- Inserting adds one element. -/
theorem length_insertByKey {α : Type} (key : α → Int) (a : α) (l : List α) :
    (insertByKey key a l).length = l.length + 1 := by
  induction l with
  | nil => rfl
  | cons b bs ih =>
      by_cases h : key a ≤ key b <;> simp [insertByKey, h, ih]

/-- Membership in an insertion. -/
theorem mem_insertByKey {α : Type} (key : α → Int) (a x : α) (l : List α) :
    x ∈ insertByKey key a l ↔ x = a ∨ x ∈ l := by
  induction l with
  | nil => simp [insertByKey]
  | cons b bs ih =>
      by_cases h : key a ≤ key b
      · simp [insertByKey, h]
      · simp [insertByKey, h, ih]
        tauto

/-- Sorting preserves length. -/
theorem length_sortByKey {α : Type} (key : α → Int) (l : List α) :
    (sortByKey key l).length = l.length := by
  induction l with
  | nil => rfl
  | cons a as ih => simp [sortByKey, List.foldr] at ih ⊢; simp [length_insertByKey, ih]

/-- Sorting preserves membership. -/
theorem mem_sortByKey {α : Type} (key : α → Int) (x : α) (l : List α) :
    x ∈ sortByKey key l ↔ x ∈ l := by
  induction l with
  | nil => simp [sortByKey]
  | cons a as ih =>
      simp only [sortByKey, List.foldr] at ih ⊢
      rw [mem_insertByKey, ih, List.mem_cons]

/-- C7: `retrieve` returns at most `k` observations; every returned
observation's creation time lies within the supplied `from_date` and
`to_date` bounds; and in the store after the call, every observation row
whose id was returned carries an `accessed` timestamp at least the time
of the call. -/
theorem c7_retrieve_bounds (s : Store) (msId : Nat) (q : List Int) (k : Nat)
    (fromDate toDate : Option Int) (now : Int) :
    ((MemoryStream.retrieve s msId q k fromDate toDate now).1.length ≤ k)
    ∧ (∀ o ∈ (MemoryStream.retrieve s msId q k fromDate toDate now).1,
        Store.inBounds fromDate toDate o.created = true)
    ∧ (∀ row ∈ (MemoryStream.retrieve s msId q k fromDate toDate now).2.observations,
        row.id ∈ (MemoryStream.retrieve s msId q k fromDate toDate now).1.map
          (fun o => o.id) →
        now ≤ row.accessed) := by
  refine ⟨?_, ?_, ?_⟩
  · show (sortByKey _ (s.ms_search msId q k fromDate toDate)).length ≤ k
    rw [length_sortByKey]
    simp only [Store.ms_search]
    exact List.length_take_le _ _
  · intro o ho
    have h1 : o ∈ s.ms_search msId q k fromDate toDate :=
      (mem_sortByKey _ o _).mp ho
    simp only [Store.ms_search] at h1
    have h2 := (mem_sortByKey _ o _).mp (List.mem_of_mem_take h1)
    have h3 := (List.mem_filter.mp h2).2
    simp only [Bool.and_eq_true] at h3
    exact h3.2
  · intro row hrow hid
    have hid2 : row.id ∈ (s.ms_search msId q k fromDate toDate).map (fun o => o.id) := by
      rcases List.mem_map.mp hid with ⟨o, ho, hoid⟩
      refine List.mem_map.mpr ⟨o, ?_, hoid⟩
      have ho2 : o ∈ sortByKey (fun o => o.created) (s.ms_search msId q k fromDate toDate) := ho
      exact (mem_sortByKey _ o _).mp ho2
    have hne : ¬ ((s.ms_search msId q k fromDate toDate).map (fun o => o.id)).isEmpty = true := by
      intro hE
      rw [List.isEmpty_iff] at hE
      rw [hE] at hid2
      cases hid2
    have hrow2 : row ∈ (if ((s.ms_search msId q k fromDate toDate).map
        (fun o => o.id)).isEmpty
        then s
        else s.ms_update_accessed
          ((s.ms_search msId q k fromDate toDate).map (fun o => o.id)) now).observations :=
      hrow
    rw [if_neg hne] at hrow2
    simp only [Store.ms_update_accessed] at hrow2
    rcases List.mem_map.mp hrow2 with ⟨o0, _, hupd⟩
    by_cases hc : ((s.ms_search msId q k fromDate toDate).map
        (fun o => o.id)).contains o0.id = true
    · rw [if_pos hc] at hupd
      rw [← hupd]
    · rw [if_neg hc] at hupd
      rw [← hupd] at hid2
      exact absurd (List.elem_iff.mpr hid2) (by simpa [List.contains] using hc)


/-- C7 witness: the theorem applied at a one-observation store; the
single returned observation lies in the window and its stored `accessed`
timestamp is refreshed to the call time. -/
theorem c7_witness :
    ((MemoryStream.retrieve c7Store 1 [1, 2] 3 (some 50) (some 150) 200).1.length ≤ 3)
    ∧ (⟨5, 1, "event-7", 0, 100, 100⟩ : ObsRow) ∈
        (MemoryStream.retrieve c7Store 1 [1, 2] 3 (some 50) (some 150) 200).1
    ∧ Store.inBounds (some 50) (some 150) (100 : Int) = true
    ∧ (⟨5, 1, "event-7", 0, 100, 200⟩ : ObsRow) ∈
        (MemoryStream.retrieve c7Store 1 [1, 2] 3 (some 50) (some 150) 200).2.observations
    ∧ (200 : Int) ≤ ((⟨5, 1, "event-7", 0, 100, 200⟩ : ObsRow)).accessed :=
  ⟨(c7_retrieve_bounds c7Store 1 [1, 2] 3 (some 50) (some 150) 200).1,
   by decide, by decide, by decide,
   (c7_retrieve_bounds c7Store 1 [1, 2] 3 (some 50) (some 150) 200).2.2
     ⟨5, 1, "event-7", 0, 100, 200⟩ (by decide) (by decide)⟩

/-!
## Claim C8 — `once` tasks
-/

/-- One tick over a singleton task list. -/
theorem tick_singleton (invoke : CallbackKind → List String × Bool) (now : Int)
    (t : ScheduledTask) :
    tick invoke now [t]
      = ([(runTask invoke now t).1], (runTask invoke now t).2.1,
         (runTask invoke now t).2.2) := by
  simp [tick]

/-- Evolution of a single `once` task under the loop: every invocation
happens at a tick time at least `run_at`, and when the callback does not
raise, the number of invocations is bounded by one while the task is
fresh (zero once it has run or is disabled). -/
theorem once_run_ticks (runAt : Int) (times : List Int) :
    ∀ t : ScheduledTask, t.trigger_type = TriggerType.once → t.run_at = some runAt →
      (∀ rec ∈ (runTicks invokeCallback times [t]).2.2, runAt ≤ rec.2)
      ∧ ((invokeCallback t.callback).2 = false →
          (runTicks invokeCallback times [t]).2.2.length
            ≤ (if t.run_count == 0 && t.enabled then 1 else 0)) := by
  induction times with
  | nil =>
      intro t _ _
      refine ⟨?_, ?_⟩
      · intro rec hrec
        simp [runTicks] at hrec
      · intro _
        simp [runTicks]
  | cons now rest ih =>
      intro t htrig hrun
      have hstep : runTicks invokeCallback (now :: rest) [t]
          = ((runTicks invokeCallback rest [(runTask invokeCallback now t).1]).1,
             (runTask invokeCallback now t).2.1
               ++ (runTicks invokeCallback rest [(runTask invokeCallback now t).1]).2.1,
             (runTask invokeCallback now t).2.2
               ++ (runTicks invokeCallback rest [(runTask invokeCallback now t).1]).2.2) := by
        simp [runTicks, tick_singleton]
      by_cases hs : t.should_run now = true
      · -- the task runs at this tick
        have henabled : t.enabled = true := by
          by_contra hne
          simp [ScheduledTask.should_run, hne] at hs
        have hcond : runAt ≤ now ∧ t.run_count = 0 := by
          rw [ScheduledTask.should_run, htrig, hrun] at hs
          simp [henabled] at hs
          exact ⟨hs.1, hs.2⟩
        rw [ScheduledTask.should_run, htrig, hrun] at hs
        by_cases hraise : (invokeCallback t.callback).2 = true
        · -- raising callback: nothing updated, task retried
          have hrt : runTask invokeCallback now t = (t, (invokeCallback t.callback).1, [(t.id, now)]) := by
            rw [runTask]
            simp only [ScheduledTask.should_run, htrig, hrun]
            simp [henabled, hcond.1, hcond.2, hraise]
          have hrest := ih t htrig hrun
          refine ⟨?_, ?_⟩
          · intro rec hrec
            rw [hstep] at hrec
            simp only [hrt, List.mem_append] at hrec
            rcases hrec with hrec | hrec
            · simp at hrec
              rw [hrec]
              exact hcond.1
            · exact hrest.1 rec hrec
          · intro hnr
            rw [hnr] at hraise
            cases hraise
        · -- successful run: run_count bumped, once task disabled
          have hraise' : (invokeCallback t.callback).2 = false := by
            cases h2 : (invokeCallback t.callback).2
            · rfl
            · exact absurd h2 hraise
          set t2 : ScheduledTask :=
            { t with run_count := t.run_count + 1, last_run := some now, enabled := false }
            with ht2
          have hrt : runTask invokeCallback now t
              = (t2, (invokeCallback t.callback).1, [(t.id, now)]) := by
            rw [runTask]
            simp only [ScheduledTask.should_run, htrig, hrun]
            simp [henabled, hcond.1, hcond.2, hraise', ht2, htrig, hrun]
          have hrest := ih t2 (by simp [ht2, htrig]) (by simp [ht2, hrun])
          refine ⟨?_, ?_⟩
          · intro rec hrec
            rw [hstep] at hrec
            simp only [hrt, List.mem_append] at hrec
            rcases hrec with hrec | hrec
            · simp at hrec
              rw [hrec]
              exact hcond.1
            · exact hrest.1 rec hrec
          · intro hnr
            have h10 : (runTicks invokeCallback rest [t2]).2.2.length ≤ 0 := by
              have h9 := hrest.2 hnr
              simpa [ht2] using h9
            rw [hstep]
            simp only [hrt]
            have hcondb : (t.run_count == 0 && t.enabled) = true := by
              rw [hcond.2, henabled]
              rfl
            rw [hcondb, if_pos rfl]
            rw [List.length_append]
            simp only [List.length_singleton]
            omega
      · -- the task does not run at this tick
        have hs' : t.should_run now = false := by
          cases h2 : t.should_run now
          · rfl
          · exact absurd h2 hs
        have hrt : runTask invokeCallback now t = (t, [], []) := by
          rw [runTask, hs']
          simp
        have hrest := ih t htrig hrun
        refine ⟨?_, ?_⟩
        · intro rec hrec
          rw [hstep] at hrec
          simp only [hrt, List.nil_append] at hrec
          exact hrest.1 rec hrec
        · intro hnr
          rw [hstep]
          simp only [hrt, List.nil_append]
          exact hrest.2 hnr

/-- C8 counterexample: the claim says a `once` task's callback is
invoked at most once in total.  A callback that raises leaves
`run_count` untouched and the task enabled, so the loop invokes it again
at the next tick: with ticks at times 0 and 1 a `once` task due at 0
whose callback raises is invoked twice. -/
theorem c8_counterexample :
    ¬ ((runTicks invokeCallback [0, 1]
        [schedule_once "t" (CallbackKind.sync [] true) 0]).2.2.length ≤ 1) := by
  decide

/-- C8 amended: for a task created by `schedule_once` at time `t`, every
invocation happens at a tick whose time `now` satisfies `now ≥ t`, and
when the callback does not raise the callback is invoked at most once
across the whole run; a raising invocation leaves the task eligible to
be retried. -/
theorem c8_once_task (times : List Int) (taskId : String) (cb : CallbackKind)
    (runAt : Int) :
    (∀ rec ∈ (runTicks invokeCallback times [schedule_once taskId cb runAt]).2.2,
       runAt ≤ rec.2)
    ∧ ((invokeCallback cb).2 = false →
       (runTicks invokeCallback times [schedule_once taskId cb runAt]).2.2.length ≤ 1) := by
  have h := once_run_ticks runAt times (schedule_once taskId cb runAt) rfl rfl
  refine ⟨h.1, ?_⟩
  intro hnr
  have := h.2 hnr
  simpa [schedule_once] using this

/-- C8 witness: a non-raising `once` task due at 5, ticked at 4, 5 and
6, is invoked exactly once, at time 5. -/
theorem c8_witness :
    (invokeCallback (CallbackKind.sync ["done"] false)).2 = false
    ∧ ("tk", (5 : Int)) ∈ (runTicks invokeCallback [4, 5, 6]
        [schedule_once "tk" (CallbackKind.sync ["done"] false) 5]).2.2
    ∧ (5 : Int) ≤ (("tk", (5 : Int)) : String × Int).2
    ∧ (runTicks invokeCallback [4, 5, 6]
        [schedule_once "tk" (CallbackKind.sync ["done"] false) 5]).2.2.length ≤ 1 :=
  ⟨by rfl, by decide,
   (c8_once_task [4, 5, 6] "tk" (CallbackKind.sync ["done"] false) 5).1
     ("tk", 5) (by decide),
   (c8_once_task [4, 5, 6] "tk" (CallbackKind.sync ["done"] false) 5).2 (by rfl)⟩

/-!
## Claim C10 — one relationship per ordered entity pair
-/


/-- Setting a key on a dict makes it look up to the new value. -/
theorem lookup_setKey_self (d : Props) (k v : String) :
    (setKey d k v).lookup k = some v := by
  induction d with
  | nil => simp [setKey, List.lookup]
  | cons a as ih =>
      rcases a with ⟨a1, a2⟩
      by_cases ha : (a1 == k) = true
      · have hany : ((⟨a1, a2⟩ : String × String) :: as).any (fun p => p.1 == k) = true := by
          simp [ha]
        rw [setKey, if_pos hany]
        simp only [List.map_cons]
        rw [show (if ((⟨a1, a2⟩ : String × String).1 == k) = true
              then (k, v) else (⟨a1, a2⟩ : String × String)) = (k, v) from by simp [ha]]
        simp [List.lookup]
      · have hka : (k == a1) = false := by
          cases hkk : (k == a1)
          · rfl
          · have hke : k = a1 := by simpa using hkk
            rw [hke] at ha
            simp at ha
        by_cases has : as.any (fun p => p.1 == k) = true
        · have hany : ((⟨a1, a2⟩ : String × String) :: as).any (fun p => p.1 == k) = true := by
            simp [has]
          rw [setKey, if_pos hany]
          simp only [List.map_cons]
          rw [show (if ((⟨a1, a2⟩ : String × String).1 == k) = true
                then (k, v) else (⟨a1, a2⟩ : String × String)) = ⟨a1, a2⟩ from by simp [ha]]
          simp only [List.lookup]
          rw [hka]
          rw [setKey, if_pos has] at ih
          exact ih
        · have hany : ¬ (((⟨a1, a2⟩ : String × String) :: as).any (fun p => p.1 == k) = true) := by
            simp only [List.any_cons, Bool.or_eq_true]
            rintro (hb | hb)
            · exact ha hb
            · exact has hb
          rw [setKey, if_neg hany]
          simp only [List.cons_append, List.lookup]
          rw [hka]
          rw [setKey, if_neg has] at ih
          exact ih

/-- Updating entry data in place does not change the keys. -/
theorem map_fst_update {kappa : Type} [BEq kappa] (edges : List (kappa × Props))
    (key : kappa) (f : (kappa × Props) → Props) :
    ((edges.map (fun p => if p.1 == key then (p.1, f p) else p)).map (fun p => p.1))
      = edges.map (fun p => p.1) := by
  induction edges with
  | nil => rfl
  | cons a as ih =>
      simp only [List.map_cons]
      rw [ih]
      by_cases h : (a.1 == key) = true
      · rw [if_pos h]
      · rw [if_neg h]

/-- The in-place update is visible at the updated key. -/
theorem find?_update {kappa : Type} [BEq kappa] (edges : List (kappa × Props))
    (key : kappa) (f : (kappa × Props) → Props)
    (q : kappa × Props)
    (h : edges.find? (fun p => p.1 == key) = some q) :
    (edges.map (fun p => if p.1 == key then (p.1, f p) else p)).find?
        (fun p => p.1 == key) = some (q.1, f q) := by
  induction edges with
  | nil => cases h
  | cons a as ih =>
      rcases a with ⟨ak, ad⟩
      simp only [List.map_cons, List.find?] at h ⊢
      by_cases ha : (ak == key) = true
      · rw [ha] at h
        injection h with hq
        subst hq
        simp [ha]
      · have ha' : (ak == key) = false := by
          cases hb : (ak == key)
          · rfl
          · exact absurd hb ha
        rw [ha'] at h
        rw [if_neg ha]
        dsimp only
        rw [ha']
        exact ih h

/-- A key with no edge is not among the edge keys. -/
theorem not_mem_keys_of_find?_none (edges : List ((String × String) × Props))
    (key : String × String) (h : edges.find? (fun p => p.1 == key) = none) :
    key ∉ edges.map (fun p => p.1) := by
  intro hmem
  rcases List.mem_map.mp hmem with ⟨p, hp, hpk⟩
  have hnp := List.find?_eq_none.mp h p hp
  rw [hpk] at hnp
  simp at hnp

/-- C10: every embedded mutating operation of the in-memory
`KnowledgeGraph` preserves the at-most-one-relationship-per-ordered-pair
invariant (the `DiGraph` keyed representation), and `add_relationship`
on a pair that already carries a relationship with a different label
updates the data of the single directed edge — its label becomes the new
one and no parallel edge is added. -/
theorem c10_one_edge_per_pair (kg : KnowledgeGraph) (entity : String)
    (eprops : Props) (prop value : String) (e1 rel e2 : String) (props : Props)
    (hinv : edgeKeysNodup kg) :
    edgeKeysNodup (kg.add_entity entity eprops).1
    ∧ edgeKeysNodup (kg.add_entity_property entity prop value).1
    ∧ edgeKeysNodup (kg.remove_entity entity).1
    ∧ edgeKeysNodup (kg.remove_relationship e1 rel e2).1
    ∧ edgeKeysNodup (kg.add_relationship e1 rel e2 props).1
    ∧ (∀ d l, kg.hasNode e1 = true → kg.hasNode e2 = true →
        kg.getEdge e1 e2 = some d → d.lookup "relationship" = some l → l ≠ rel →
        props.any (fun p => p.1 == "relationship") = false →
        (kg.add_relationship e1 rel e2 props).1.getEdge e1 e2
            = some (dictUpdate d (setKey props "relationship" rel))
        ∧ (dictUpdate d (setKey props "relationship" rel)).lookup "relationship"
            = some rel
        ∧ (kg.add_relationship e1 rel e2 props).1.edges.map (fun p => p.1)
            = kg.edges.map (fun p => p.1)) := by
  have hAddEnt : (kg.add_entity entity eprops).1.edges = kg.edges := by
    rw [KnowledgeGraph.add_entity]
    by_cases h : kg.hasNode entity = true
    · rw [if_pos h]
    · rw [if_neg h, KnowledgeGraph.addNodeRaw, if_neg h]
  have hAddProp : (kg.add_entity_property entity prop value).1.edges = kg.edges := by
    rw [KnowledgeGraph.add_entity_property]
    by_cases h : kg.hasNode entity = true
    · rw [if_neg (by simp [h])]
    · rw [if_pos (by simp [h])]
  refine ⟨?_, ?_, ?_, ?_, ?_, ?_⟩
  · rw [edgeKeysNodup, hAddEnt]
    exact hinv
  · rw [edgeKeysNodup, hAddProp]
    exact hinv
  · rw [KnowledgeGraph.remove_entity]
    by_cases h : kg.hasNode entity = true
    · rw [if_neg (by simp [h])]
      exact hinv.sublist ((List.filter_sublist _).map _)
    · rw [if_pos (by simp [h])]
      exact hinv
  · rw [KnowledgeGraph.remove_relationship]
    cases hE : kg.getEdge e1 e2 with
    | none => exact hinv
    | some d0 =>
        dsimp only
        by_cases hl : (d0.lookup "relationship" != some rel) = true
        · rw [if_pos hl]
          exact hinv
        · rw [if_neg hl]
          exact hinv.sublist ((List.filter_sublist _).map _)
  · rw [KnowledgeGraph.add_relationship]
    by_cases h1 : kg.hasNode e1 = true
    case neg =>
      rw [if_pos (by simp [h1])]
      exact hinv
    rw [if_neg (by simp [h1])]
    by_cases h2 : kg.hasNode e2 = true
    case neg =>
      rw [if_pos (by simp [h2])]
      exact hinv
    rw [if_neg (by simp [h2])]
    cases hE : kg.getEdge e1 e2 with
    | none =>
        show ((kg.addEdgeRaw e1 e2 (setKey props "relationship" rel)).edges.map
          (fun p => p.1)).Nodup
        rw [KnowledgeGraph.addEdgeRaw]
        simp only [hE]
        have hfind : kg.edges.find? (fun p => p.1 == (e1, e2)) = none := by
          rw [KnowledgeGraph.getEdge] at hE
          exact Option.map_eq_none'.mp hE
        have hnm := not_mem_keys_of_find?_none kg.edges (e1, e2) hfind
        simp only [List.map_append, List.map_cons, List.map_nil]
        rw [List.nodup_append]
        exact ⟨hinv, List.nodup_singleton _, by
          intro x hx hx2
          simp at hx2
          rw [hx2] at hx
          exact hnm hx⟩
    | some d0 =>
        dsimp only
        by_cases hdup : (d0.lookup "relationship" == some rel) = true
        · simp only [hdup, if_pos]
          exact hinv
        · have hdup' : (d0.lookup "relationship" == some rel) = false := by
            cases hb : (d0.lookup "relationship" == some rel)
            · rfl
            · exact absurd hb hdup
          simp only [hdup', Bool.false_eq_true, if_false]
          show ((kg.addEdgeRaw e1 e2 (setKey props "relationship" rel)).edges.map
            (fun p => p.1)).Nodup
          rw [KnowledgeGraph.addEdgeRaw]
          simp only [hE]
          rw [map_fst_update]
          exact hinv
  · intro d l h1 h2 hE hl hne hpr
    have hdup : (d.lookup "relationship" == some rel) = false := by
      rw [hl]
      simp only [beq_eq_false_iff_ne, ne_eq, Option.some.injEq]
      exact hne
    have hres : (kg.add_relationship e1 rel e2 props).1
        = kg.addEdgeRaw e1 e2 (setKey props "relationship" rel) := by
      rw [KnowledgeGraph.add_relationship]
      rw [if_neg (by simp [h1]), if_neg (by simp [h2]), hE]
      rw [if_neg (by simp [hdup])]
    have hq := Option.map_eq_some'.mp (show (kg.edges.find?
        (fun p => p.1 == (e1, e2))).map (fun p => p.2) = some d from hE)
    rcases hq with ⟨q, hqf, hqd⟩
    refine ⟨?_, ?_, ?_⟩
    · rw [hres, KnowledgeGraph.getEdge, KnowledgeGraph.addEdgeRaw]
      simp only [hE]
      rw [find?_update kg.edges (e1, e2) _ q hqf]
      simp [hqd]
    · have hfresh : setKey props "relationship" rel = props ++ [("relationship", rel)] := by
        rw [setKey, if_neg (by simp [hpr])]
      rw [hfresh, dictUpdate, List.foldl_append]
      simp only [List.foldl_cons, List.foldl_nil]
      exact lookup_setKey_self _ _ _
    · rw [hres, KnowledgeGraph.addEdgeRaw]
      simp only [hE]
      rw [map_fst_update]


/-- C10 witness: relabelling the `Alice → Paris` edge from `visited` to
`lives_in` updates the single directed edge in place — its label becomes
`lives_in`, the old `since` property survives the NetworkX attribute
merge, and the edge-key list is unchanged. -/
theorem c10_witness :
    edgeKeysNodup c10Kg
    ∧ ((c10Kg.add_relationship "Alice" "lives_in" "Paris" []).1.getEdge "Alice" "Paris"
        = some (dictUpdate [("relationship", "visited"), ("since", "2020")]
            (setKey [] "relationship" "lives_in"))
      ∧ (dictUpdate [("relationship", "visited"), ("since", "2020")]
          (setKey [] "relationship" "lives_in")).lookup "relationship" = some "lives_in"
      ∧ (c10Kg.add_relationship "Alice" "lives_in" "Paris" []).1.edges.map (fun p => p.1)
        = c10Kg.edges.map (fun p => p.1)) :=
  ⟨show (c10Kg.edges.map (fun p => p.1)).Nodup by decide,
   (c10_one_edge_per_pair c10Kg "X" [] "p" "v" "Alice" "lives_in" "Paris" []
      (show (c10Kg.edges.map (fun p => p.1)).Nodup by decide)).2.2.2.2.2
     [("relationship", "visited"), ("since", "2020")] "visited" (by decide) (by decide)
     (by decide) (by decide) (by decide) (by decide)⟩

/-!
## Claim C9 — storage round-trips through `kg_load_full`
-/

/-- The `find?` looks left first. -/
theorem find?_append_some {α : Type} (l₁ l₂ : List α) (p : α → Bool) (x : α)
    (h : l₁.find? p = some x) : (l₁ ++ l₂).find? p = some x := by
  rw [List.find?_append, h]
  rfl

/-- The `find?` falls through an unmatched prefix. -/
theorem find?_append_none {α : Type} (l₁ l₂ : List α) (p : α → Bool)
    (h : l₁.find? p = none) : (l₁ ++ l₂).find? p = l₂.find? p := by
  rw [List.find?_append, h]
  rfl

/-- No match at all when `any` is false. -/
theorem find?_none_of_any_false {α : Type} (l : List α) (p : α → Bool)
    (h : l.any p = false) : l.find? p = none := by
  rw [List.find?_eq_none]
  rw [List.any_eq_false] at h
  exact h

/-- A successful association-list lookup exposes a member pair. -/
theorem mem_of_lookup_some {kappa nu : Type} [BEq kappa] [LawfulBEq kappa]
    (l : List (kappa × nu)) (k : kappa) (v : nu) (h : l.lookup k = some v) :
    (k, v) ∈ l := by
  induction l with
  | nil => cases h
  | cons a as ih =>
      rcases a with ⟨ak, av⟩
      simp only [List.lookup] at h
      cases hk : (k == ak)
      · rw [hk] at h
        exact List.mem_cons_of_mem _ (ih h)
      · rw [hk] at h
        injection h with hv
        subst hv
        have hke : k = ak := eq_of_beq hk
        subst hke
        exact List.mem_cons_self _ _

/-- The `add_node` leaves the edges alone. -/
theorem edges_addNodeRaw (kg : KnowledgeGraph) (n : String) (pr : Props) :
    (kg.addNodeRaw n pr).edges = kg.edges := by
  rw [KnowledgeGraph.addNodeRaw]
  by_cases h : kg.hasNode n = true
  · rw [if_pos h]
  · rw [if_neg h]

/-- The `any` over a keyed list only sees the keys. -/
theorem any_fst_eq {kappa : Type} [BEq kappa] (l : List (kappa × Props)) (nm : kappa) :
    l.any (fun p => p.1 == nm) = (l.map (fun p => p.1)).any (fun k => k == nm) := by
  induction l with
  | nil => rfl
  | cons a as ih => simp [ih]

/-- The `add_node` of a different name keeps an absent name absent. -/
theorem hasNode_addNodeRaw_false (kg : KnowledgeGraph) (n : String) (pr : Props)
    (nm : String) (h : kg.hasNode nm = false) (hn : (n == nm) = false) :
    (kg.addNodeRaw n pr).hasNode nm = false := by
  rw [KnowledgeGraph.addNodeRaw]
  by_cases hx : kg.hasNode n = true
  · rw [if_pos hx]
    show (kg.nodes.map (fun p => if p.1 == n then (p.1, dictUpdate p.2 pr) else p)).any
      (fun p => p.1 == nm) = false
    rw [any_fst_eq, map_fst_update, ← any_fst_eq]
    exact h
  · rw [if_neg hx]
    show (kg.nodes ++ [(n, pr)]).any (fun p => p.1 == nm) = false
    rw [List.any_append]
    rw [KnowledgeGraph.hasNode] at h
    rw [h]
    simp [hn]

/-- The `add_node` of a fresh name stores exactly the supplied dict. -/
theorem getNode_addNodeRaw_fresh (kg : KnowledgeGraph) (n : String) (pr : Props)
    (h : kg.hasNode n = false) :
    (kg.addNodeRaw n pr).getNode n = some pr := by
  rw [KnowledgeGraph.addNodeRaw, if_neg (by rw [h]; exact Bool.false_ne_true)]
  rw [KnowledgeGraph.getNode]
  show ((kg.nodes ++ [(n, pr)]).find? (fun p => p.1 == n)).map (fun p => p.2) = some pr
  rw [find?_append_none _ _ _ (find?_none_of_any_false _ _ h)]
  simp [List.find?]

/-- The `add_edge` never modifies an existing node's attribute dict. -/
theorem getNode_addEdgeRaw (kg : KnowledgeGraph) (u v : String) (attrs : Props)
    (nm : String) (pr : Props) (h : kg.getNode nm = some pr) :
    (kg.addEdgeRaw u v attrs).getNode nm = some pr := by
  rw [KnowledgeGraph.getNode] at h
  rcases Option.map_eq_some'.mp h with ⟨x, hx, hxp⟩
  rw [KnowledgeGraph.addEdgeRaw, KnowledgeGraph.getNode]
  have h1 : (if kg.hasNode u = true then kg.nodes else kg.nodes ++ [(u, [])]).find?
      (fun p => p.1 == nm) = some x := by
    by_cases hu : kg.hasNode u = true
    · rw [if_pos hu]
      exact hx
    · rw [if_neg hu]
      exact find?_append_some _ _ _ _ hx
  dsimp only
  by_cases hv : ((if kg.hasNode u = true then kg.nodes else kg.nodes ++ [(u, [])]).any
      (fun p => p.1 == v)) = true
  · rw [if_pos hv, h1]
    simp [hxp]
  · rw [if_neg hv, find?_append_some _ _ _ _ h1]
    simp [hxp]

/-- The `add_edge` with endpoints other than `nm` keeps `nm` absent. -/
theorem hasNode_addEdgeRaw_false (kg : KnowledgeGraph) (u v : String) (attrs : Props)
    (nm : String) (h : kg.hasNode nm = false) (hu : (u == nm) = false)
    (hv : (v == nm) = false) :
    (kg.addEdgeRaw u v attrs).hasNode nm = false := by
  rw [KnowledgeGraph.hasNode] at h
  rw [KnowledgeGraph.addEdgeRaw, KnowledgeGraph.hasNode]
  have h1 : (if kg.hasNode u = true then kg.nodes else kg.nodes ++ [(u, [])]).any
      (fun p => p.1 == nm) = false := by
    by_cases hun : kg.hasNode u = true
    · rw [if_pos hun]
      exact h
    · rw [if_neg hun, List.any_append, h]
      simp [hu]
  dsimp only
  by_cases hvn : ((if kg.hasNode u = true then kg.nodes else kg.nodes ++ [(u, [])]).any
      (fun p => p.1 == v)) = true
  · rw [if_pos hvn]
    exact h1
  · rw [if_neg hvn, List.any_append, h1]
    simp [hv]

/-- Every edge key after `add_edge` is an old key or the new pair. -/
theorem edgeKeys_addEdgeRaw (kg : KnowledgeGraph) (u v : String) (attrs : Props) :
    ∀ p ∈ (kg.addEdgeRaw u v attrs).edges,
      p.1 ∈ kg.edges.map (fun q => q.1) ∨ p.1 = (u, v) := by
  intro p hp
  rw [KnowledgeGraph.addEdgeRaw] at hp
  cases hE : kg.getEdge u v with
  | some d =>
      rw [hE] at hp
      dsimp only at hp
      rcases List.mem_map.mp hp with ⟨q, hq, hqp⟩
      by_cases hk : (q.1 == (u, v)) = true
      · rw [if_pos hk] at hqp
        left
        rw [← hqp]
        exact List.mem_map.mpr ⟨q, hq, rfl⟩
      · rw [if_neg hk] at hqp
        left
        rw [← hqp]
        exact List.mem_map.mpr ⟨q, hq, rfl⟩
  | none =>
      rw [hE] at hp
      dsimp only at hp
      rcases List.mem_append.mp hp with hq | hq
      · left
        exact List.mem_map.mpr ⟨p, hq, rfl⟩
      · right
        rcases List.mem_singleton.mp hq with rfl
        rfl

/-- Folding `add_node` over rows without name `nm` keeps `nm` absent. -/
theorem foldl_addNode_hasNode_false (rows : List EntityRow) (kg : KnowledgeGraph)
    (nm : String) (h : kg.hasNode nm = false)
    (hr : ∀ r ∈ rows, (r.name == nm) = false) :
    (rows.foldl (fun kg e => kg.addNodeRaw e.name e.props) kg).hasNode nm = false := by
  induction rows generalizing kg with
  | nil => exact h
  | cons r rs ih =>
      simp only [List.foldl_cons]
      exact ih _
        (hasNode_addNodeRaw_false kg r.name r.props nm h (hr r (List.mem_cons_self _ _)))
        (fun q hq => hr q (List.mem_cons_of_mem _ hq))

/-- Folding `add_node` never touches the edges. -/
theorem foldl_addNode_edges (rows : List EntityRow) (kg : KnowledgeGraph) :
    (rows.foldl (fun kg e => kg.addNodeRaw e.name e.props) kg).edges = kg.edges := by
  induction rows generalizing kg with
  | nil => rfl
  | cons r rs ih =>
      simp only [List.foldl_cons]
      rw [ih, edges_addNodeRaw]

/-- The relationship fold of `kg_load_full` never modifies a stored
node's attribute dict. -/
theorem foldl_addEdge_getNode (idToName : List (Nat × String)) (rows : List RelRow)
    (kg : KnowledgeGraph) (nm : String) (pr : Props) (h : kg.getNode nm = some pr) :
    (rows.foldl (fun kg r =>
      match idToName.lookup r.fromId, idToName.lookup r.toId with
      | some fn, some tn => kg.addEdgeRaw fn tn (setKey r.props "relationship" r.relType)
      | _, _ => kg) kg).getNode nm = some pr := by
  induction rows generalizing kg with
  | nil => exact h
  | cons r rs ih =>
      simp only [List.foldl_cons]
      cases hf : idToName.lookup r.fromId with
      | none =>
          simp only [hf]
          exact ih _ h
      | some fn =>
          cases ht : idToName.lookup r.toId with
          | none =>
              simp only [hf, ht]
              exact ih _ h
          | some tn =>
              simp only [hf, ht]
              exact ih _ (getNode_addEdgeRaw kg fn tn _ nm pr h)

/-- The relationship fold of `kg_load_full` keeps a name absent and
keeps every edge clear of it, provided the id-to-name map never yields
that name. -/
theorem foldl_addEdge_free (idToName : List (Nat × String)) (rows : List RelRow)
    (kg : KnowledgeGraph) (nm : String)
    (h1 : kg.hasNode nm = false)
    (h2 : ∀ p ∈ kg.edges, p.1.1 ≠ nm ∧ p.1.2 ≠ nm)
    (hlook : ∀ k v, idToName.lookup k = some v → (v == nm) = false) :
    ((rows.foldl (fun kg r =>
      match idToName.lookup r.fromId, idToName.lookup r.toId with
      | some fn, some tn => kg.addEdgeRaw fn tn (setKey r.props "relationship" r.relType)
      | _, _ => kg) kg).hasNode nm = false)
    ∧ ∀ p ∈ (rows.foldl (fun kg r =>
      match idToName.lookup r.fromId, idToName.lookup r.toId with
      | some fn, some tn => kg.addEdgeRaw fn tn (setKey r.props "relationship" r.relType)
      | _, _ => kg) kg).edges, p.1.1 ≠ nm ∧ p.1.2 ≠ nm := by
  induction rows generalizing kg with
  | nil => exact ⟨h1, h2⟩
  | cons r rs ih =>
      simp only [List.foldl_cons]
      cases hf : idToName.lookup r.fromId with
      | none =>
          simp only [hf]
          exact ih _ h1 h2
      | some fn =>
          cases ht : idToName.lookup r.toId with
          | none =>
              simp only [hf, ht]
              exact ih _ h1 h2
          | some tn =>
              simp only [hf, ht]
              have hfn := hlook _ _ hf
              have htn := hlook _ _ ht
              refine ih _ (hasNode_addEdgeRaw_false kg fn tn _ nm h1 hfn htn) ?_
              intro p hp
              rcases edgeKeys_addEdgeRaw kg fn tn _ p hp with hold | hnew
              · rcases List.mem_map.mp hold with ⟨q, hq, hqk⟩
                rw [← hqk]
                exact h2 q hq
              · rw [hnew]
                constructor
                · intro hc
                  have hfc : fn = nm := hc
                  rw [hfc] at hfn
                  simp at hfn
                · intro hc
                  have htc : tn = nm := hc
                  rw [htc] at htn
                  simp at htn

/-- C9: over a well-formed entity table (unique `(kg, name)` keys — the
schema's UNIQUE constraint), `kg_add_entity` of a fresh name followed by
`kg_load_full` yields a graph containing the entity with exactly the
supplied properties; and `kg_remove_entity` followed by `kg_load_full`
yields a graph with no entity `E` and no relationship incident to `E`. -/
theorem c9_kg_roundtrip (s : Store) (project node : String) (row : KgRow)
    (E : String) (P : Props)
    (hrow : s.kgs.find? (fun r => r.projectId == project && r.nodeId == node) = some row)
    (hwfKeys : (s.entities.map (fun r => (r.kgId, r.name))).Nodup) :
    (s.entities.any (fun r => r.kgId == row.id && r.name == E) = false →
      ∃ kg, ((s.kg_add_entity row.id E P).2).kg_load_full project node = some kg
        ∧ kg.getNode E = some P)
    ∧ (∃ kg, (s.kg_remove_entity row.id E).kg_load_full project node = some kg
        ∧ kg.hasNode E = false
        ∧ ∀ p ∈ kg.edges, p.1.1 ≠ E ∧ p.1.2 ≠ E) := by
  constructor
  · intro hAbsent
    have hsplit : (s.kg_add_entity row.id E P).2
        = { s with entities := s.entities ++ [⟨s.nextEntityId, row.id, E, P⟩],
                   nextEntityId := s.nextEntityId + 1 } := by
      rw [Store.kg_add_entity, if_neg (by rw [hAbsent]; exact Bool.false_ne_true)]
    have hload : ((s.kg_add_entity row.id E P).2).kg_load_full project node
        = some (((s.kg_add_entity row.id E P).2).loadGraph row.id) := by
      rw [Store.kg_load_full]
      rw [show (s.kg_add_entity row.id E P).2.kgs = s.kgs from by rw [hsplit]]
      rw [hrow]
    refine ⟨_, hload, ?_⟩
    rw [Store.loadGraph]
    rw [show (s.kg_add_entity row.id E P).2.entities
        = s.entities ++ [⟨s.nextEntityId, row.id, E, P⟩] from by rw [hsplit]]
    rw [show (s.kg_add_entity row.id E P).2.rels = s.rels from by rw [hsplit]]
    rw [List.filter_append]
    have hfilterNew : List.filter (fun r => r.kgId == row.id)
        ([⟨s.nextEntityId, row.id, E, P⟩] : List EntityRow)
        = [⟨s.nextEntityId, row.id, E, P⟩] := by simp
    rw [hfilterNew]
    rw [List.foldl_append]
    simp only [List.foldl_cons, List.foldl_nil]
    have hfreshOld : ∀ r ∈ s.entities.filter (fun r => r.kgId == row.id),
        (r.name == E) = false := by
      intro r hr
      have hmem := List.mem_filter.mp hr
      have hAll := List.any_eq_false.mp hAbsent r hmem.1
      cases hb : (r.name == E)
      · rfl
      · exact absurd (by rw [hmem.2, hb]; rfl :
          (r.kgId == row.id && r.name == E) = true) hAll
    have hA : ((s.entities.filter (fun r => r.kgId == row.id)).foldl
        (fun kg e => kg.addNodeRaw e.name e.props) KnowledgeGraph.empty).hasNode E
          = false :=
      foldl_addNode_hasNode_false _ _ _ (by rfl) hfreshOld
    have hB := getNode_addNodeRaw_fresh _ E P hA
    exact foldl_addEdge_getNode _ _ _ E P hB
  · have hkgs2 : (s.kg_remove_entity row.id E).kgs = s.kgs := by
      rw [Store.kg_remove_entity]
      cases hfound : s.kg_get_entity_id row.id E
      · rfl
      · rfl
    have hload : (s.kg_remove_entity row.id E).kg_load_full project node
        = some ((s.kg_remove_entity row.id E).loadGraph row.id) := by
      rw [Store.kg_load_full, hkgs2, hrow]
    refine ⟨_, hload, ?_⟩
    have hgood : ∀ r ∈ (s.kg_remove_entity row.id E).entities.filter
        (fun r => r.kgId == row.id), (r.name == E) = false := by
      rw [Store.kg_remove_entity]
      cases hfound : s.kg_get_entity_id row.id E with
      | none =>
          intro r hr
          have hmem := List.mem_filter.mp hr
          have hfind : s.entities.find?
              (fun r => r.kgId == row.id && r.name == E) = none :=
            Option.map_eq_none'.mp hfound
          have hAll := List.find?_eq_none.mp hfind r hmem.1
          cases hb : (r.name == E)
          · rfl
          · exact absurd (by rw [hmem.2, hb]; rfl :
              (r.kgId == row.id && r.name == E) = true) hAll
      | some eId =>
          intro r hr
          dsimp only at hr
          have hmem := List.mem_filter.mp hr
          have hmem2 := List.mem_filter.mp hmem.1
          rcases Option.map_eq_some'.mp hfound with ⟨q, hqf, hqe⟩
          have hqmem := List.mem_of_find?_eq_some hqf
          have hqpred := List.find?_some hqf
          simp only [Bool.and_eq_true, beq_iff_eq] at hqpred
          cases hb : (r.name == E)
          · rfl
          · exfalso
            have hrk : r.kgId = row.id := by
              have := hmem.2
              simp only [beq_iff_eq] at this
              exact this
            have hrn : r.name = E := by simpa using hb
            have hkey : (fun r : EntityRow => (r.kgId, r.name)) r
                = (fun r : EntityRow => (r.kgId, r.name)) q := by
              simp only [hrk, hrn, hqpred.1, hqpred.2]
            have hrq : r = q :=
              List.inj_on_of_nodup_map hwfKeys hmem2.1 hqmem hkey
            have hne := hmem2.2
            rw [hrq, hqe] at hne
            simp at hne
    rw [Store.loadGraph]
    have hA : (((s.kg_remove_entity row.id E).entities.filter
        (fun r => r.kgId == row.id)).foldl
        (fun kg e => kg.addNodeRaw e.name e.props) KnowledgeGraph.empty).hasNode E
          = false :=
      foldl_addNode_hasNode_false _ _ _ (by rfl) hgood
    have hEdges : (((s.kg_remove_entity row.id E).entities.filter
        (fun r => r.kgId == row.id)).foldl
        (fun kg e => kg.addNodeRaw e.name e.props) KnowledgeGraph.empty).edges = [] := by
      rw [foldl_addNode_edges]
      rfl
    have hlook : ∀ k v, (((s.kg_remove_entity row.id E).entities.filter
        (fun r => r.kgId == row.id)).map (fun e => (e.id, e.name))).lookup k = some v →
        (v == E) = false := by
      intro k v hkv
      have hmem := mem_of_lookup_some _ k v hkv
      rcases List.mem_map.mp hmem with ⟨e, he, hev⟩
      have hgoodE := hgood e he
      have hv : v = e.name := by
        have := congrArg Prod.snd hev
        exact this.symm
      rw [hv]
      exact hgoodE
    have hfree := foldl_addEdge_free _ ((s.kg_remove_entity row.id E).rels.filter
        (fun r => r.kgId == row.id)) _ E hA
      (by
        intro p hp
        rw [hEdges] at hp
        cases hp) hlook
    exact ⟨hfree.1, hfree.2⟩


/-- C9 witness: the round-trip theorem applied at `c9Store` — adding a
fresh `Bob` and reloading shows `Bob` with exactly its properties;
removing `Alice` and reloading yields a graph without `Alice` and with
no edge incident to `Alice`. -/
theorem c9_witness :
    c9Store.kgs.find? (fun r => r.projectId == "p" && r.nodeId == "kg-node")
      = some ⟨1, "p", "kg-node"⟩
    ∧ (c9Store.entities.map (fun r => (r.kgId, r.name))).Nodup
    ∧ (c9Store.entities.any (fun r => r.kgId == 1 && r.name == "Bob")) = false
    ∧ (∃ kg, ((c9Store.kg_add_entity 1 "Bob" [("type", "person")]).2).kg_load_full
          "p" "kg-node" = some kg
        ∧ kg.getNode "Bob" = some [("type", "person")])
    ∧ (∃ kg, (c9Store.kg_remove_entity 1 "Alice").kg_load_full "p" "kg-node" = some kg
        ∧ kg.hasNode "Alice" = false
        ∧ ∀ p ∈ kg.edges, p.1.1 ≠ "Alice" ∧ p.1.2 ≠ "Alice") :=
  ⟨by decide, by decide, by decide,
   (c9_kg_roundtrip c9Store "p" "kg-node" ⟨1, "p", "kg-node"⟩ "Bob" [("type", "person")]
      (by decide) (by decide)).1 (by decide),
   (c9_kg_roundtrip c9Store "p" "kg-node" ⟨1, "p", "kg-node"⟩ "Alice" []
      (by decide) (by decide)).2⟩

/-!
## Claim C2 — message buffers
-/

/-- Association-list lookup distributes over append. -/
theorem lookup_append {nu : Type} (l₁ l₂ : List (String × nu)) (k : String) :
    (l₁ ++ l₂).lookup k = (l₁.lookup k).or (l₂.lookup k) := by
  induction l₁ with
  | nil => rfl
  | cons a as ih =>
      rcases a with ⟨ak, av⟩
      simp only [List.cons_append, List.lookup]
      cases hk : (k == ak)
      · exact ih
      · rfl

/-- Appending to one key's entry in place, seen through `lookup`. -/
theorem lookup_mapAppendEntry {nu : Type} (l : List (String × List nu))
    (j : String) (v : nu) (k : String) :
    ((l.map (fun p => if p.1 == j then (p.1, p.2 ++ [v]) else p)).lookup k)
      = if k = j then (l.lookup k).map (fun xs => xs ++ [v]) else l.lookup k := by
  induction l with
  | nil => by_cases h : k = j <;> simp [h]
  | cons a as ih =>
      rcases a with ⟨ak, av⟩
      simp only [List.map_cons]
      by_cases h1 : (ak == j) = true
      · have hak : ak = j := eq_of_beq h1
        subst hak
        rw [if_pos h1]
        by_cases h2 : k = ak
        · subst h2
          simp [List.lookup]
        · have hk2 : (k == ak) = false := by
            cases hb : (k == ak)
            · rfl
            · exact absurd (eq_of_beq hb) h2
          simp only [List.lookup, hk2, if_neg h2]
          rw [ih, if_neg h2]
      · rw [if_neg h1]
        have haj : ak ≠ j := fun hc => h1 (by rw [hc]; exact beq_self_eq_true j)
        by_cases h2 : k = ak
        · subst h2
          have hkj : k ≠ j := haj
          simp only [List.lookup, beq_self_eq_true]
          rw [if_neg hkj]
        · have hk2 : (k == ak) = false := by
            cases hb : (k == ak)
            · rfl
            · exact absurd (eq_of_beq hb) h2
          simp only [List.lookup, hk2]
          exact ih

/-- The `appendRouting` behaves like the Python `routing[src].append(entry)`
with default-empty entry lists. -/
theorem lookupRouting_appendRouting (routing : List (String × List (TargetKind × String)))
    (src : String) (entry : TargetKind × String) (k : String) :
    lookupRouting (appendRouting routing src entry) k
      = if k = src then lookupRouting routing k ++ [entry] else lookupRouting routing k := by
  rw [appendRouting]
  cases hl : routing.lookup src with
  | some xs =>
      rw [lookupRouting, lookup_mapAppendEntry]
      by_cases h : k = src
      · rw [if_pos h, if_pos h]
        subst h
        simp [lookupRouting, hl]
      · rw [if_neg h, if_neg h]
        rfl
  | none =>
      rw [lookupRouting, lookup_append]
      by_cases h : k = src
      · subst h
        simp [List.lookup, lookupRouting, hl]
      · have hk : (k == src) = false := by
          cases hb : (k == src)
          · rfl
          · exact absurd (eq_of_beq hb) h
        rw [if_neg h, lookupRouting]
        have : (([(src, [entry])] : List (String × List (TargetKind × String))).lookup k)
            = none := by
          simp [List.lookup, hk]
        rw [this]
        cases routing.lookup k <;> rfl

/-- Entries already routed survive later `appendRouting` steps and the
rest of the fold. -/
theorem mem_lookupRouting_foldl (d : Design) (ex bufs : List String) :
    ∀ (l : List GEdge) (init : List (String × List (TargetKind × String)))
      (k : String) (x : TargetKind × String), x ∈ lookupRouting init k →
      x ∈ lookupRouting (l.foldl (fun routing e =>
        match classifyEdge d ex bufs e with
        | none => routing
        | some entry => appendRouting routing e.source_node entry) init) k := by
  intro l
  induction l with
  | nil => intro init k x hx; exact hx
  | cons e rest ih =>
      intro init k x hx
      simp only [List.foldl_cons]
      cases hc : classifyEdge d ex bufs e with
      | none =>
          simp only [hc]
          exact ih _ k x hx
      | some entry =>
          simp only [hc]
          refine ih _ k x ?_
          rw [lookupRouting_appendRouting]
          by_cases h : k = e.source_node
          · rw [if_pos h]
            exact List.mem_append_left _ hx
          · rw [if_neg h]
            exact hx

/-- Every classified `message` edge of the design lands in the routing
table under its source node. -/
theorem mem_build_routing (d : Design) (ex bufs : List String) (e : GEdge)
    (he : e ∈ d.edges) (entry : TargetKind × String)
    (hc : classifyEdge d ex bufs e = some entry) :
    entry ∈ lookupRouting (build_routing_table d ex bufs) e.source_node := by
  rw [build_routing_table]
  have main : ∀ (l : List GEdge) (init : List (String × List (TargetKind × String))),
      e ∈ l →
      entry ∈ lookupRouting (l.foldl (fun routing e =>
        match classifyEdge d ex bufs e with
        | none => routing
        | some entry => appendRouting routing e.source_node entry) init) e.source_node := by
    intro l
    induction l with
    | nil => intro init hmem; cases hmem
    | cons a rest ih =>
        intro init hmem
        simp only [List.foldl_cons]
        rcases List.mem_cons.mp hmem with rfl | hmem2
        · rw [hc]
          refine mem_lookupRouting_foldl d ex bufs rest _ _ _ ?_
          rw [lookupRouting_appendRouting, if_pos rfl]
          exact List.mem_append_right _ (List.mem_singleton.mpr rfl)
        · cases hca : classifyEdge d ex bufs a <;> simp only [hca] <;> exact ih _ hmem2
  exact main d.edges [] he

/-- Inner step of the log-monotonicity proof: given monotonicity of
`walkFrom` at this fuel, the target loop only appends to the log. -/
theorem log_mono_aux (fuel : Nat) (rt : String → List (TargetKind × String))
    (execs : String → List Msg → List Msg)
    (hwf : ∀ (src : String) (msgs : List Msg) (st : WalkState) (x : String × List Msg),
      x ∈ st.log → x ∈ (walkFrom fuel rt execs src msgs st).log) :
    ∀ (targets : List (TargetKind × String)) (msgs : List Msg) (st : WalkState)
      (x : String × List Msg),
      x ∈ st.log → x ∈ (walkTargets fuel rt execs targets msgs st).log := by
  intro targets
  induction targets with
  | nil =>
      intro msgs st x hx
      rw [walkTargets.eq_def]
      exact hx
  | cons u rest ih =>
      intro msgs st x hx
      rcases u with ⟨kind, tid⟩
      rw [walkTargets.eq_def]
      dsimp only
      refine ih msgs _ x ?_
      have hdel : x ∈ (st.deliver tid msgs).log := List.mem_append_left _ hx
      cases kind with
      | executable =>
          dsimp only
          by_cases hout : (execs tid msgs).isEmpty = true
          · rw [if_pos hout]
            exact hdel
          · rw [if_neg hout]
            exact hwf tid (execs tid msgs) _ x hdel
      | message_buffer_in =>
          exact hdel
      | message_buffer_trigger =>
          dsimp only
          by_cases hfl : (((st.buffers.lookup tid).getD ⟨[]⟩).flush.1).isEmpty = true
          · rw [if_pos hfl]
            exact hdel
          · rw [if_neg hfl]
            exact hwf tid _ _ x hdel
      | exitTarget =>
          exact hdel

/-- Delivery-log entries accumulate along the walk. -/
theorem walkTargets_log_mono : ∀ (fuel : Nat) (rt : String → List (TargetKind × String))
    (execs : String → List Msg → List Msg) (targets : List (TargetKind × String))
    (msgs : List Msg) (st : WalkState) (x : String × List Msg),
    x ∈ st.log → x ∈ (walkTargets fuel rt execs targets msgs st).log := by
  intro fuel
  induction fuel with
  | zero =>
      intro rt execs
      refine log_mono_aux 0 rt execs ?_
      intro src msgs st x hx
      rw [walkFrom]
      exact hx
  | succ f ihf =>
      intro rt execs
      refine log_mono_aux (f + 1) rt execs ?_
      intro src msgs st x hx
      rw [walkFrom]
      exact ihf rt execs (rt src) msgs st x hx

/-- The `walkFrom` only appends to the log. -/
theorem walkFrom_log_mono (fuel : Nat) (rt : String → List (TargetKind × String))
    (execs : String → List Msg → List Msg) (src : String) (msgs : List Msg)
    (st : WalkState) (x : String × List Msg) (hx : x ∈ st.log) :
    x ∈ (walkFrom fuel rt execs src msgs st).log := by
  cases fuel with
  | zero =>
      rw [walkFrom]
      exact hx
  | succ f =>
      rw [walkFrom]
      exact walkTargets_log_mono f rt execs (rt src) msgs st x hx

/-- Every target of the loop receives the current message list: its
delivery is on the final log. -/
theorem walkTargets_delivers (fuel : Nat) (rt : String → List (TargetKind × String))
    (execs : String → List Msg → List Msg) :
    ∀ (targets : List (TargetKind × String)) (msgs : List Msg) (st : WalkState),
      ∀ t ∈ targets, (t.2, msgs) ∈ (walkTargets fuel rt execs targets msgs st).log := by
  intro targets
  induction targets with
  | nil =>
      intro msgs st t ht
      cases ht
  | cons u rest ih =>
      intro msgs st t ht
      rcases u with ⟨kind, tid⟩
      rw [walkTargets.eq_def]
      dsimp only
      rcases List.mem_cons.mp ht with heq | hmem
      · subst heq
        refine walkTargets_log_mono fuel rt execs rest msgs _ _ ?_
        have hdel : ((tid : String), msgs) ∈ (st.deliver tid msgs).log :=
          List.mem_append_right _ (List.mem_singleton.mpr rfl)
        cases kind with
        | executable =>
            dsimp only
            by_cases hout : (execs tid msgs).isEmpty = true
            · rw [if_pos hout]
              exact hdel
            · rw [if_neg hout]
              exact walkFrom_log_mono fuel rt execs tid (execs tid msgs) _ _ hdel
        | message_buffer_in =>
            exact hdel
        | message_buffer_trigger =>
            dsimp only
            by_cases hfl : (((st.buffers.lookup tid).getD ⟨[]⟩).flush.1).isEmpty = true
            · rw [if_pos hfl]
              exact hdel
            · rw [if_neg hfl]
              exact walkFrom_log_mono fuel rt execs tid _ _ _ hdel
        | exitTarget =>
            exact hdel
      · exact ih msgs _ t hmem

/-- Overwriting a key in place yields that value (or nothing) on lookup. -/
theorem lookup_set_self {nu : Type} (l : List (String × nu)) (b : String) (v : nu) :
    ((l.map (fun p => if p.1 == b then (p.1, v) else p)).lookup b) = none
    ∨ ((l.map (fun p => if p.1 == b then (p.1, v) else p)).lookup b) = some v := by
  induction l with
  | nil => left; rfl
  | cons a as ih =>
      rcases a with ⟨ak, av⟩
      simp only [List.map_cons]
      by_cases hk : (ak == b) = true
      · right
        have hab : (b == ak) = true := by
          have hke : ak = b := eq_of_beq hk
          rw [hke]
          exact beq_self_eq_true b
        rw [if_pos hk]
        simp only [List.lookup]
        rw [hab]
      · have hk' : (ak == b) = false := by
          cases hbb : (ak == b)
          · rfl
          · exact absurd hbb hk
        have hab : (b == ak) = false := by
          cases hbb : (b == ak)
          · rfl
          · exact absurd (by rw [eq_of_beq hbb]; exact beq_self_eq_true ak) hk
        rw [if_neg hk]
        simp only [List.lookup]
        rw [hab]
        exact ih

/-- After `setBuf b ⟨[]⟩` the buffer `b` has no pending messages. -/
theorem getPending_setBuf (st : WalkState) (b : String) :
    (st.setBuf b ⟨[]⟩).getPending b = [] := by
  rw [WalkState.setBuf, WalkState.getPending]
  rcases lookup_set_self st.buffers b (⟨[]⟩ : MessageBufferState) with h | h
  · show ((((st.buffers.map (fun p => if p.1 == b then (p.1, ⟨[]⟩) else p)).lookup b)).getD
      ⟨[]⟩).pending_messages = []
    rw [h]
    rfl
  · show ((((st.buffers.map (fun p => if p.1 == b then (p.1, ⟨[]⟩) else p)).lookup b)).getD
      ⟨[]⟩).pending_messages = []
    rw [h]
    rfl

/-- C2: a `message_buffer` delivers `message_in` arrivals into its
pending list in order (`MessageBufferState.buffer` appends), and a
message arriving at its `trigger` port flushes it: the walk continues
from the buffer with the full prior pending list, the buffer's pending
list is empty from the flush on, and the flushed list is delivered, in
its original order, to every `message_out` successor of the buffer in
the routing table built from the design's message edges. -/
theorem c2_message_buffer (d : Design) (ex bufs : List String)
    (execs : String → List Msg → List Msg) (f : Nat) (b : String)
    (st : WalkState) (rest : List (TargetKind × String)) (msgs P : List Msg)
    (hb : st.buffers.lookup b = some ⟨P⟩) (hP : P ≠ []) :
    (∀ (q : MessageBufferState) (M : List Msg),
        (q.buffer M).pending_messages = q.pending_messages ++ M)
    ∧ walkTargets (f + 1) (fun s => lookupRouting (build_routing_table d ex bufs) s) execs
        ((TargetKind.message_buffer_trigger, b) :: rest) msgs st
      = walkTargets (f + 1) (fun s => lookupRouting (build_routing_table d ex bufs) s) execs
          rest msgs
          (walkFrom (f + 1) (fun s => lookupRouting (build_routing_table d ex bufs) s) execs
            b P ((st.deliver b msgs).setBuf b ⟨[]⟩))
    ∧ ((st.deliver b msgs).setBuf b ⟨[]⟩).getPending b = []
    ∧ (∀ e ∈ d.edges, e.source_node = b →
        ∀ entry, classifyEdge d ex bufs e = some entry →
        (entry.2, P) ∈ (walkFrom (f + 1)
          (fun s => lookupRouting (build_routing_table d ex bufs) s) execs b P
          ((st.deliver b msgs).setBuf b ⟨[]⟩)).log) := by
  have hPE : P.isEmpty = false := by
    cases P
    · exact absurd rfl hP
    · rfl
  refine ⟨fun q M => rfl, ?_, ?_, ?_⟩
  · rw [walkTargets.eq_def]
    dsimp only
    rw [hb]
    simp only [Option.getD, MessageBufferState.flush]
    rw [hPE]
    rfl
  · exact getPending_setBuf (st.deliver b msgs) b
  · intro e he hsrc entry hc
    have hmem := mem_build_routing d ex bufs e he entry hc
    rw [hsrc] at hmem
    rw [walkFrom]
    exact walkTargets_delivers f _ execs _ P _ entry hmem




/-- C2 witness: triggering buffer `B` (pending `[(u, hello)]`) empties
it and delivers the pending list to its `message_out` successor `A`. -/
theorem c2_witness :
    c2State.buffers.lookup "B" = some ⟨[⟨"u", "hello"⟩]⟩
    ∧ ([⟨"u", "hello"⟩] : List Msg) ≠ []
    ∧ (⟨"B", "message_out", "A", "message_in", EdgeKind.message⟩ : GEdge) ∈ c2Design.edges
    ∧ classifyEdge c2Design ["A"] ["B"]
        ⟨"B", "message_out", "A", "message_in", EdgeKind.message⟩
        = some (TargetKind.executable, "A")
    ∧ ((c2State.deliver "B" [⟨"S", "go"⟩]).setBuf "B" ⟨[]⟩).getPending "B" = []
    ∧ ("A", [(⟨"u", "hello"⟩ : Msg)]) ∈ (walkFrom 1
        (fun s => lookupRouting (build_routing_table c2Design ["A"] ["B"]) s) c2Execs
        "B" [⟨"u", "hello"⟩]
        ((c2State.deliver "B" [⟨"S", "go"⟩]).setBuf "B" ⟨[]⟩)).log :=
  ⟨by decide, by decide, by decide, by decide,
   (c2_message_buffer c2Design ["A"] ["B"] c2Execs 0 "B" c2State [] [⟨"S", "go"⟩]
      [⟨"u", "hello"⟩] (by decide) (by decide)).2.2.1,
   (c2_message_buffer c2Design ["A"] ["B"] c2Execs 0 "B" c2State [] [⟨"S", "go"⟩]
      [⟨"u", "hello"⟩] (by decide) (by decide)).2.2.2
     ⟨"B", "message_out", "A", "message_in", EdgeKind.message⟩ (by decide) (by decide)
     (TargetKind.executable, "A") (by decide)⟩

end BeezleBug
